import Mathlib

/-!
Verification development for the Conversor_TTS repository
(src/Conversor_TTS_com_MP4_09.04.2025.py).

Strings are modelled as `List Char` (Python's `len`, slicing and character
classes act on code points, which `List Char` mirrors exactly).  Each Lean
definition embeds the Python function of the same name; regex-based passes
are embedded through a small backtracking matcher that mirrors Python's
`re` semantics (leftmost match, greedy quantifiers with backtracking,
alternation tried left to right).
-/

namespace TTS

/-- Characters stripped by Python's `str.strip()` (ASCII whitespace subset;
the texts handled by the program contain no other whitespace). -/
def pyIsSpace (c : Char) : Bool :=
  c = ' ' || c = '\t' || c = '\n' || c = '\r' || c = Char.ofNat 11 || c = Char.ofNat 12

/-- Python `str.strip()`. -/
def pyStrip (s : List Char) : List Char :=
  ((s.dropWhile pyIsSpace).reverse.dropWhile pyIsSpace).reverse

/-- Prepends a character to the first part of a split (the split of a
non-empty suffix is never empty, so the first arm is unreachable). -/
def consHead (c : Char) : List (List Char) → List (List Char)
  | [] => [[c]]
  | h :: t => (c :: h) :: t

/-- Python `texto.split('\n\n')` (leftmost, non-overlapping occurrences). -/
def splitDoubleNL : List Char → List (List Char)
  | [] => [[]]
  | '\n' :: '\n' :: rest => [] :: splitDoubleNL rest
  | c :: rest => consHead c (splitDoubleNL rest)

/-- Sentence delimiter characters of the chunker's `re.split(r'([.!?…]+)', …)`. -/
def isSentDelim (c : Char) : Bool :=
  c = '.' || c = '!' || c = '?' || c = '…'

/-- Auxiliary scanner: splits a string into (text, delimiter-run) pairs,
mirroring the alternating list produced by `re.split(r'([.!?…]+)', s)`
(the final pair has an empty delimiter).  `t` accumulates the current text
and `d` the current delimiter run, both reversed; `inD` is true while a
delimiter run is being collected. -/
def sentSplitAux (t d : List Char) (inD : Bool) : List Char → List (List Char × List Char)
  | [] => if inD then [(t.reverse, d.reverse), ([], [])] else [(t.reverse, d.reverse)]
  | c :: rest =>
    if inD then
      if isSentDelim c then sentSplitAux t (c :: d) true rest
      else (t.reverse, d.reverse) :: sentSplitAux [c] [] false rest
    else
      if isSentDelim c then sentSplitAux t [c] true rest
      else sentSplitAux (c :: t) [] false rest

/-- The (text, delimiter) pairs of `re.split(r'([.!?…]+)', s)`. -/
def sentSplit (s : List Char) : List (List Char × List Char) :=
  sentSplitAux [] [] false s

/-- Fuel-indexed hard-slicing; the fuel only bounds recursion depth and is
instantiated with the string length, which always suffices. -/
def hardSlicesAux (limite : Nat) : Nat → List Char → List (List Char)
  | 0, _ => []
  | _, [] => []
  | fuel + 1, c :: rest =>
    if limite = 0 then []
    else (c :: rest).take limite :: hardSlicesAux limite fuel ((c :: rest).drop limite)

/-- The hard-slicing loop `for i in range(0, len(trecho), limite)` of
`dividir_texto_para_tts` (the Python loop requires `limite > 0`; for
`limite = 0` the model returns no slices). -/
def hardSlices (limite : Nat) (s : List Char) : List (List Char) :=
  hardSlicesAux limite s.length s

/-- The sentence-packing `while idx_frase < len(frases_com_delimitadores)`
loop of `dividir_texto_para_tts`, over the (text, delimiter) pairs, with
`seg` the running buffer `segmento_atual`.  On loop exit the non-empty
buffer is flushed. -/
def chunkLoop (limite : Nat) : List (List Char × List Char) → List Char → List (List Char)
  | [], seg => if seg.isEmpty then [] else [seg]
  | (f, d) :: rest, seg =>
    let frase := pyStrip f
    let delim := pyStrip d
    let trecho := pyStrip (frase ++ delim)
    if trecho.isEmpty then chunkLoop limite rest seg
    else if seg.length + trecho.length + 1 ≤ limite then
      chunkLoop limite rest (if seg.isEmpty then trecho else seg ++ ' ' :: trecho)
    else
      (if seg.isEmpty then [] else [seg]) ++
      (if limite < trecho.length then
        hardSlices limite trecho ++ chunkLoop limite rest []
      else
        chunkLoop limite rest trecho)

/-- Embeds `dividir_texto_para_tts(texto_processado, limite_caracteres)`:
splits on blank lines, emits short paragraphs whole, packs sentences of
long paragraphs greedily, hard-slices oversize sentences, and finally
filters out whitespace-only parts. -/
def dividir_texto_para_tts (texto : List Char) (limite : Nat) : List (List Char) :=
  let partes := splitDoubleNL texto
  let finais := (partes.map (fun p =>
    let ps := pyStrip p
    if ps.isEmpty then []
    else if ps.length ≤ limite then [ps]
    else chunkLoop limite (sentSplit ps) [])).flatten
  finais.filter (fun p => !(pyStrip p).isEmpty)

/-- String-literal helper: a Lean string literal as a `List Char`. -/
def pstr (s : String) : List Char := s.toList

/-- Deletes every whitespace character (used to state content preservation). -/
def delws (s : List Char) : List Char := s.filter (fun c => !pyIsSpace c)

/-- The string `c` is one of the fixed-size pieces produced by hard-slicing a trimmed
sentence `t` that exceeds the limit: the `i`-th `limite`-wide slice, which is
exactly `limite` characters long unless it is the final slice of `t`. -/
def SliceOfOversize (limite : Nat) (c : List Char) : Prop :=
  ∃ t i, pyStrip t = t ∧ limite < t.length ∧
    c = (t.drop (i * limite)).take limite ∧
    (c.length = limite ∨ t.length ≤ (i + 1) * limite)

/-- Both ends of the string carry no whitespace. -/
def Trimmed (s : List Char) : Prop :=
  (∀ c ∈ s.head?, pyIsSpace c = false) ∧ (∀ c ∈ s.getLast?, pyIsSpace c = false)

/-- The scheduler's result array `resultados_conversao` (initialised to
`[False] * total`), updated by `resultados_conversao[idx_original] = sucesso`
as the tasks of `iniciar_conversao_tts` complete in arbitrary order under
`asyncio.as_completed`; `cs` lists the `(idx_original, sucesso)` pairs in
completion order. -/
def foldResults (cs : List (Nat × Bool)) : Nat → Bool :=
  cs.foldl (fun acc pr => fun i => if i = pr.1 then pr.2 else acc i) (fun _ => false)

/-- The verification loop `for i in range(total_partes)` of
`iniciar_conversao_tts` building `arquivos_mp3_sucesso`: file `i` is
appended when its task succeeded and the file exists with size > 200
(`fsOk i`), skipping paths already present in the list. -/
def buildSuccessList (total : Nat) (results fsOk : Nat → Bool)
    (fname : Nat → List Char) : List (List Char) :=
  (List.range total).foldl (fun acc i =>
    if results i && fsOk i then
      (if acc.contains (fname i) then acc else acc ++ [fname i])
    else acc) []

/-- One line of the ffmpeg concat list written by
`unificar_arquivos_audio_ffmpeg`: `file '<path>'` with single quotes in the
path escaped by a backslash. -/
def concatLine (f : List Char) : List Char :=
  pstr "file '" ++ (f.map (fun c => if c = '\'' then ['\\', '\''] else [c])).flatten
    ++ pstr "'" ++ ['\n']

/-- The full contents of the concat list-file: one line per audio file, in
the order of the list handed to the assembler. -/
def concatListFile (files : List (List Char)) : List Char :=
  (files.map concatLine).flatten

/-- Outcome of one Gemini network attempt (the `aiohttp` POST of
`_converter_chunk_tts_gemini`). -/
inductive GemNet where
  /-- HTTP 200; `audio` is true when the base64 `inlineData` payload is
  present (when absent the code raises `NoAudioDataInResponse` and retries). -/
  | ok (audio : Bool)
  /-- HTTP 429; `delay` is the parsed `RetryInfo.retryDelay` in seconds, or
  `none` when absent or unparseable. -/
  | rate (delay : Option ℚ)
  /-- Any other HTTP status; `keyExpired` is true when the error body
  contains the key-expired message. -/
  | err (status : Nat) (keyExpired : Bool)
  /-- An `asyncio.TimeoutError` or any other exception during the request. -/
  | exc
deriving DecidableEq

/-- Environment of one iteration of the Gemini retry loop: the cancellation
flag observed at the loop top, the network outcome, the ffmpeg PCM-to-MP3
return status, the output-file state after the encode attempt, and the
`random.uniform(0, 1)` sample drawn in this iteration. -/
structure GemEnv where
  cancel : Bool
  net : GemNet
  encodeOk : Bool
  fileAfter : Option Nat
  jitter : ℚ
deriving DecidableEq

/-- Environment of one iteration of the Edge retry loop: the cancellation
flag, whether `communicate.save` raised, and the output-file state after
the save attempt. -/
structure EdgeEnv where
  cancel : Bool
  exc : Bool
  fileAfter : Option Nat
deriving DecidableEq

/-- How an adapter run ended: `success`/`emptyOk` are the `return True`
statements (verified audio file, or empty chunk skipped), `cancelled` and
`fatal` the `return False` statements. -/
inductive ExitKind where
  | success
  | emptyOk
  | cancelled
  | fatal
deriving DecidableEq

/-- The boolean the Python adapter actually returns. -/
def ExitKind.toBool : ExitKind → Bool
  | .success => true
  | .emptyOk => true
  | .cancelled => false
  | .fatal => false

/-- Embeds `path.exists() and path.stat().st_size > 200`. -/
def bigFile : Option Nat → Bool
  | some n => 200 < n
  | none => false

/-- Edge backoff `wait_time = min(2 * tentativas, 20)` (seconds). -/
def edgeWait (t : Nat) : ℚ := min (2 * t) 20

/-- Gemini non-429 backoff
`wait_time_exp = min((2 ** tentativas) + random.uniform(0, 1), 20)`. -/
def gemWait (t : Nat) (j : ℚ) : ℚ := min ((2 : ℚ) ^ t + j) 20

/-- Gemini 429 wait: the parsed server delay when present and nonzero,
otherwise the fallback `(1 ** tentativas) + random.uniform(0, 1)`
(the code initialises `wait_time = 0` and falls back `if wait_time == 0`). -/
def gem429Wait (parsed : Option ℚ) (t : Nat) (j : ℚ) : ℚ :=
  if parsed.getD 0 = 0 then (1 : ℚ) ^ t + j else parsed.getD 0

/-- Observable trace of an adapter run over a finite list of attempt
environments: the exit (or `none` while still retrying), the number of
network requests issued, the sleeps performed, the final output-file state,
and the file state at the moment of each network request. -/
structure RunRes where
  result : Option ExitKind
  calls : Nat
  waits : List ℚ
  file : Option Nat
  atCall : List (Option Nat)
deriving DecidableEq

/-- The `while True` retry loop of `_converter_chunk_tts_edge`: check the
cancellation flag, `unlink` the output file, skip empty chunks, attempt
`communicate.save`, return on a verified file, otherwise back off with
`min(2 * tentativas, 20)` and retry. -/
def edgeLoop (emptyText : Bool) : Nat → Option Nat → List EdgeEnv → RunRes
  | _, file, [] => ⟨none, 0, [], file, []⟩
  | t, file, e :: rest =>
    if e.cancel then ⟨some .cancelled, 0, [], file, []⟩
    else if emptyText then ⟨some .emptyOk, 0, [], none, []⟩
    else if !e.exc && bigFile e.fileAfter then ⟨some .success, 1, [], e.fileAfter, [none]⟩
    else
      let r := edgeLoop emptyText (t + 1) e.fileAfter rest
      ⟨r.result, r.calls + 1, edgeWait (t + 1) :: r.waits, r.file, none :: r.atCall⟩

/-- Embeds `_converter_chunk_tts_edge`: the resume pre-check (existing file larger
than 200 bytes returns success immediately), then the retry loop. -/
def edgeConvert (emptyText : Bool) (file0 : Option Nat) (envs : List EdgeEnv) : RunRes :=
  if bigFile file0 then ⟨some .success, 0, [], file0, []⟩
  else edgeLoop emptyText 0 file0 envs

/-- The `while True` retry loop of `_converter_chunk_tts_gemini`: check the
cancellation flag, `unlink`, skip empty chunks, POST to the API; on 200
with audio run ffmpeg and return on a verified file; on 429 sleep the
mandated delay and retry without incrementing `tentativas`; on 400 or an
expired key return failure; otherwise back off exponentially and retry. -/
def gemLoop (emptyText : Bool) : Nat → Option Nat → List GemEnv → RunRes
  | _, file, [] => ⟨none, 0, [], file, []⟩
  | t, file, e :: rest =>
    if e.cancel then ⟨some .cancelled, 0, [], file, []⟩
    else if emptyText then ⟨some .emptyOk, 0, [], none, []⟩
    else
      match e.net with
      | .ok true =>
        if e.encodeOk && bigFile e.fileAfter then
          ⟨some .success, 1, [], e.fileAfter, [none]⟩
        else
          let r := gemLoop emptyText (t + 1) e.fileAfter rest
          ⟨r.result, r.calls + 1, gemWait (t + 1) e.jitter :: r.waits, r.file, none :: r.atCall⟩
      | .ok false =>
        let r := gemLoop emptyText (t + 1) none rest
        ⟨r.result, r.calls + 1, gemWait (t + 1) e.jitter :: r.waits, r.file, none :: r.atCall⟩
      | .rate d =>
        let r := gemLoop emptyText t none rest
        ⟨r.result, r.calls + 1, gem429Wait d t e.jitter :: r.waits, r.file, none :: r.atCall⟩
      | .err s ke =>
        if s == 400 || ke then ⟨some .fatal, 1, [], none, [none]⟩
        else
          let r := gemLoop emptyText (t + 1) none rest
          ⟨r.result, r.calls + 1, gemWait (t + 1) e.jitter :: r.waits, r.file, none :: r.atCall⟩
      | .exc =>
        let r := gemLoop emptyText (t + 1) none rest
        ⟨r.result, r.calls + 1, gemWait (t + 1) e.jitter :: r.waits, r.file, none :: r.atCall⟩

/-- Embeds `_converter_chunk_tts_gemini`: the resume pre-check, then the loop. -/
def gemConvert (emptyText : Bool) (file0 : Option Nat) (envs : List GemEnv) : RunRes :=
  if bigFile file0 then ⟨some .success, 0, [], file0, []⟩
  else gemLoop emptyText 0 file0 envs

/-- The Gemini fatal condition `http_status == 400 or "API key expired" in
error_text` (only reachable on a non-200/429 response). -/
def gemFatalNet : GemNet → Bool
  | .err s ke => s == 400 || ke
  | _ => false

/-- An attempt environment on which the Gemini loop neither succeeds, nor
fails fatally, nor observes cancellation. -/
def gemRetryable (e : GemEnv) : Bool :=
  !e.cancel &&
    (match e.net with
     | .ok true => !(e.encodeOk && bigFile e.fileAfter)
     | .ok false => true
     | .rate _ => true
     | .err s ke => !(s == 400 || ke)
     | .exc => true)

/-- An attempt environment on which the Edge loop neither succeeds nor
observes cancellation. -/
def edgeRetryable (e : EdgeEnv) : Bool :=
  !e.cancel && !(!e.exc && bigFile e.fileAfter)

/-- A rate-limited (HTTP 429) outcome. -/
def isRateNet : GemNet → Bool
  | .rate _ => true
  | _ => false

/-!
A small backtracking regex matcher mirroring Python `re` semantics on the
patterns the normalizer uses: leftmost match, greedy quantifiers with
backtracking, alternation preferred left to right, single-character
classes under quantifiers, capturing groups, single-character lookaheads,
word boundaries, and an end-of-input anchor.
-/

/-- Regex abstract syntax.  Quantifiers `plus`/`star`/`rep` range over
single-character classes; `many r n` is a greedy `r*` bounded by `n`
iterations, each consuming at least one character (callers pass the input
length as the bound, which is always sufficient). -/
inductive RE where
  | eps
  | ch (p : Char → Bool)
  | plus (p : Char → Bool)
  | star (p : Char → Bool)
  | rep (p : Char → Bool) (lo hi : Nat)
  | opt (r : RE)
  | alt (a b : RE)
  | seq (a b : RE)
  | grp (i : Nat) (r : RE)
  | look (p : Char → Bool)
  | neg (p : Char → Bool)
  | bnd
  | eos
  | many (r : RE) (n : Nat)

/-- Captured groups, most recent first. -/
def Caps := List (Nat × List Char)

/-- Group lookup (`match.group(i)`, `none` when the group did not take part
in the match). -/
def capGet (caps : Caps) (i : Nat) : Option (List Char) :=
  (List.find? (fun pr => pr.1 = i) caps).map Prod.snd

/-- Python `\w` on the modelled character domain. -/
def isWordC (c : Char) : Bool :=
  c.isAlpha || c.isDigit || c = '_' ||
    "áàâãéêíóôõúüçÁÀÂÃÉÊÍÓÔÕÚÜÇ".toList.contains c

/-- The previous-character context after consuming `taken`. -/
def lastPrev (prev : Option Char) (taken : List Char) : Option Char :=
  match taken.getLast? with
  | some c => some c
  | none => prev

/-- Tries consuming `lo + cnt`, `lo + cnt - 1`, …, `lo` characters of `s`
(greedy), calling the continuation on each remainder. -/
def tryLens {α : Type} (s : List Char) (prev : Option Char) (caps : Caps)
    (k : List Char → Option Char → Caps → Option α) (lo : Nat) : Nat → Option α
  | 0 => k (s.drop lo) (lastPrev prev (s.take lo)) caps
  | cnt + 1 =>
    match k (s.drop (lo + cnt + 1)) (lastPrev prev (s.take (lo + cnt + 1))) caps with
    | some v => some v
    | none => tryLens s prev caps k lo cnt

/-- Structural size of a regex, used only to compute a sufficient fuel. -/
def reSize : RE → Nat
  | .eps => 1
  | .ch _ => 1
  | .plus _ => 1
  | .star _ => 1
  | .rep _ _ _ => 1
  | .opt r => reSize r + 1
  | .alt a b => reSize a + reSize b + 1
  | .seq a b => reSize a + reSize b + 1
  | .grp _ r => reSize r + 1
  | .look _ => 1
  | .neg _ => 1
  | .bnd => 1
  | .eos => 1
  | .many r _ => reSize r + 1

/-- The CPS backtracking matcher: `mtchF fuel r s prev caps k` matches `r`
against a prefix of `s` (with `prev` the character before `s`, for `\b`)
and passes the remainder, new context and captures to `k`; the first
success in backtracking order wins, giving Python's leftmost-greedy
semantics.  The fuel only bounds the recursion depth; `mtch` supplies a
bound that always suffices (each level descends into a strict subterm, or
unfolds one `many` iteration, which consumes at least one character). -/
def mtchF {α : Type} : Nat → RE → List Char → Option Char → Caps →
    (List Char → Option Char → Caps → Option α) → Option α
  | 0, _, _, _, _, _ => none
  | fuel + 1, r, s, prev, caps, k =>
    match r with
    | .eps => k s prev caps
    | .ch p =>
      match s with
      | [] => none
      | c :: rest => if p c then k rest (some c) caps else none
    | .plus p =>
      match s with
      | [] => none
      | c :: rest =>
        if p c then tryLens rest (some c) caps k 0 (rest.takeWhile p).length
        else none
    | .star p => tryLens s prev caps k 0 (s.takeWhile p).length
    | .rep p lo hi =>
      let run := min hi (s.takeWhile p).length
      if run < lo then none else tryLens s prev caps k lo (run - lo)
    | .opt r1 =>
      match mtchF fuel r1 s prev caps k with
      | some v => some v
      | none => k s prev caps
    | .alt a b =>
      match mtchF fuel a s prev caps k with
      | some v => some v
      | none => mtchF fuel b s prev caps k
    | .seq a b =>
      mtchF fuel a s prev caps (fun s' prev' caps' => mtchF fuel b s' prev' caps' k)
    | .grp i r1 =>
      mtchF fuel r1 s prev caps (fun s' prev' caps' =>
        k s' prev' ((i, s.take (s.length - s'.length)) :: caps'))
    | .look p =>
      match s with
      | [] => none
      | c :: _ => if p c then k s prev caps else none
    | .neg p =>
      match s with
      | [] => k s prev caps
      | c :: _ => if p c then none else k s prev caps
    | .bnd =>
      let wp := match prev with
        | some c => isWordC c
        | none => false
      let wn := match s with
        | c :: _ => isWordC c
        | [] => false
      if wp ≠ wn then k s prev caps else none
    | .eos =>
      match s with
      | [] => k s prev caps
      | _ => none
    | .many _ 0 => k s prev caps
    | .many r1 (n + 1) =>
      match mtchF fuel r1 s prev caps (fun s' prev' caps' =>
          if s.length - s'.length = 0 then none
          else mtchF fuel (RE.many r1 n) s' prev' caps' k) with
      | some v => some v
      | none => k s prev caps

/-- The matcher with a sufficient fuel bound. -/
def mtch {α : Type} (r : RE) (s : List Char) (prev : Option Char) (caps : Caps)
    (k : List Char → Option Char → Caps → Option α) : Option α :=
  mtchF ((reSize r + 1) * (s.length + 2)) r s prev caps k

/-- Match `r` at the start of `s` (Python `re.match`): consumed length and
captures of the first (leftmost-greedy) match. -/
def matchHere (r : RE) (s : List Char) (prev : Option Char) : Option (Nat × Caps) :=
  mtch r s prev [] (fun s' _ caps => some (s.length - s'.length, caps))

/-- Global substitution scan (Python `re.sub` with a replacement function):
tries a match at every position, emits `repl caps` over each matched span
and rescans after it (pattern must consume at least one character, which
every embedded pattern does; a zero-width match falls through). -/
def reSubF (r : RE) (repl : Caps → List Char) : Nat → Option Char → List Char → List Char
  | 0, _, s => s
  | _, _, [] => []
  | fuel + 1, prev, c :: rest =>
    match matchHere r (c :: rest) prev with
    | some (n, caps) =>
      if n = 0 then c :: reSubF r repl fuel (some c) rest
      else repl caps ++
        reSubF r repl fuel (lastPrev prev ((c :: rest).take n)) ((c :: rest).drop n)
    | none => c :: reSubF r repl fuel (some c) rest

/-- Python `re.sub(pattern, repl, s)`. -/
def reSub (r : RE) (repl : Caps → List Char) (s : List Char) : List Char :=
  reSubF r repl s.length none s

/-- Python `re.search(pattern, s) is not None`. -/
def reSearchF (r : RE) : Nat → Option Char → List Char → Bool
  | 0, prev, s => (matchHere r s prev).isSome
  | fuel + 1, prev, s =>
    match s with
    | [] => (matchHere r [] prev).isSome
    | c :: rest => (matchHere r (c :: rest) prev).isSome || reSearchF r fuel (some c) rest

/-- Python `re.search`. -/
def reSearch (r : RE) (s : List Char) : Bool :=
  reSearchF r s.length none s

/-- Case-sensitive single character. -/
def chEq (c : Char) : RE := RE.ch (fun d => d = c)

/-- Sequence of regexes. -/
def seqAll (rs : List RE) : RE := rs.foldr RE.seq RE.eps

/-- Ordered alternation of several regexes (left preferred). -/
def altAll (rs : List RE) : RE :=
  match rs with
  | [] => RE.eps
  | [r] => r
  | r :: rest => RE.alt r (altAll rest)

/-- Case pairs of the precomposed accented letters the texts use. -/
def accMap : List (Char × Char) :=
  [('á', 'Á'), ('à', 'À'), ('â', 'Â'), ('ã', 'Ã'), ('é', 'É'), ('ê', 'Ê'),
   ('í', 'Í'), ('ó', 'Ó'), ('ô', 'Ô'), ('õ', 'Õ'), ('ú', 'Ú'), ('ü', 'Ü'),
   ('ç', 'Ç')]

/-- Python `str.upper()` on one character of the modelled domain. -/
def toUpperC (c : Char) : Char :=
  if c.isLower then c.toUpper
  else ((List.find? (fun pr => pr.1 = c) accMap).map Prod.snd).getD c

/-- Python `str.lower()` on one character of the modelled domain. -/
def toLowerC (c : Char) : Char :=
  if c.isUpper then c.toLower
  else ((List.find? (fun pr => pr.2 = c) accMap).map Prod.fst).getD c

/-- A cased (alphabetic) character of the modelled domain. -/
def isAlphaC (c : Char) : Bool :=
  c.isAlpha || accMap.any (fun pr => pr.1 = c || pr.2 = c)

/-- A lowercase cased character of the modelled domain. -/
def isLowerC (c : Char) : Bool :=
  (c.isAlpha && c.isLower) || accMap.any (fun pr => pr.1 = c)

/-- An uppercase cased character of the modelled domain. -/
def isUpperC (c : Char) : Bool :=
  (c.isAlpha && c.isUpper) || accMap.any (fun pr => pr.2 = c)

/-- ASCII `[A-Z]` (Python character classes are ASCII unless listed). -/
def isUpperAZ (c : Char) : Bool := 'A' ≤ c && c ≤ 'Z'

/-- ASCII `[a-z]`. -/
def isLowerAZ (c : Char) : Bool := 'a' ≤ c && c ≤ 'z'

/-- Python `str.upper()`. -/
def pyUpper (s : List Char) : List Char := s.map toUpperC

/-- Python `str.lower()`. -/
def pyLower (s : List Char) : List Char := s.map toLowerC

/-- Python `str.capitalize()`: first character upper-cased, the rest
lower-cased. -/
def pyCapitalize (s : List Char) : List Char :=
  match s with
  | [] => []
  | c :: t => toUpperC c :: t.map toLowerC

/-- Helper for `str.title()`: `prevAlpha` is true inside a cased run. -/
def pyTitleAux (prevAlpha : Bool) : List Char → List Char
  | [] => []
  | c :: t =>
    if isAlphaC c then
      (if prevAlpha then toLowerC c else toUpperC c) :: pyTitleAux true t
    else c :: pyTitleAux false t

/-- Python `str.title()`. -/
def pyTitle (s : List Char) : List Char := pyTitleAux false s

/-- Python `str.isupper()`: at least one cased character and no lowercase
cased character. -/
def pyIsUpper (s : List Char) : Bool :=
  s.any isAlphaC && !(s.any isLowerC)

/-- Python `str.isalpha()`. -/
def pyIsAlpha (s : List Char) : Bool :=
  !s.isEmpty && s.all isAlphaC

/-- Python `str.split()` (split on whitespace runs, no empty parts). -/
def pySplitWSAux (cur : List Char) : List Char → List (List Char)
  | [] => if cur.isEmpty then [] else [cur.reverse]
  | c :: rest =>
    if pyIsSpace c then
      if cur.isEmpty then pySplitWSAux [] rest
      else cur.reverse :: pySplitWSAux [] rest
    else pySplitWSAux (c :: cur) rest

/-- Python `str.split()`. -/
def pySplitWS (s : List Char) : List (List Char) := pySplitWSAux [] s

/-- The last whitespace-separated word (`s.split()[-1]`, or `[]`). -/
def lastWord (s : List Char) : List Char :=
  ((pySplitWS s).getLast?).getD []

/-- Line-break characters of Python `str.splitlines()` occurring in the
modelled texts. -/
def isLineBreakC (c : Char) : Bool :=
  c = '\n' || c = '\r' || c = Char.ofNat 11 || c = Char.ofNat 12

/-- Helper for `str.splitlines()`; `\r\n` counts as one break. -/
def splitlinesAux (cur : List Char) : List Char → List (List Char)
  | [] => [cur.reverse]
  | '\r' :: '\n' :: rest => cur.reverse :: splitlinesAux [] rest
  | c :: rest =>
    if isLineBreakC c then cur.reverse :: splitlinesAux [] rest
    else splitlinesAux (c :: cur) rest

/-- Python `str.splitlines()`: no trailing empty line for a final break,
and `[]` on the empty string. -/
def pySplitlines (s : List Char) : List (List Char) :=
  if s.isEmpty then []
  else if (match s.getLast? with | some c => isLineBreakC c | none => false) then
    (splitlinesAux [] s).dropLast
  else splitlinesAux [] s

/-- Embeds `'\n'.join`. -/
def joinNL (ls : List (List Char)) : List Char := List.intercalate ['\n'] ls

/-- Embeds `'\n\n'.join`. -/
def joinDoubleNL (ls : List (List Char)) : List Char := List.intercalate ['\n', '\n'] ls

/-- Embeds `' '.join`. -/
def joinSpace (ls : List (List Char)) : List Char := List.intercalate [' '] ls

/-- Python `s.split(sep)` for a one-character separator. -/
def splitChar (sep : Char) : List Char → List (List Char)
  | [] => [[]]
  | c :: rest =>
    if c = sep then [] :: splitChar sep rest
    else consHead c (splitChar sep rest)

/-- Embeds `texto.replace('\f', '\n\n')`. -/
def replaceFF (s : List Char) : List Char :=
  (s.map (fun c => if c = Char.ofNat 12 then ['\n', '\n'] else [c])).flatten

/-- Parses a digit run as a number (`int(num_str)`). -/
def digitsToNat (s : List Char) : Nat :=
  s.foldl (fun n c => n * 10 + (c.toNat - 48)) 0

/-- Cardinal units and teens (0–19) in Brazilian Portuguese. -/
def ptUnits (n : Nat) : List Char :=
  (pstr (match n with
  | 0 => "zero" | 1 => "um" | 2 => "dois" | 3 => "três" | 4 => "quatro"
  | 5 => "cinco" | 6 => "seis" | 7 => "sete" | 8 => "oito" | 9 => "nove"
  | 10 => "dez" | 11 => "onze" | 12 => "doze" | 13 => "treze" | 14 => "quatorze"
  | 15 => "quinze" | 16 => "dezesseis" | 17 => "dezessete" | 18 => "dezoito"
  | _ => "dezenove"))

/-- Cardinal tens. -/
def ptTens (n : Nat) : List Char :=
  (pstr (match n with
  | 2 => "vinte" | 3 => "trinta" | 4 => "quarenta" | 5 => "cinquenta"
  | 6 => "sessenta" | 7 => "setenta" | 8 => "oitenta" | _ => "noventa"))

/-- Cardinal hundreds. -/
def ptHundreds (n : Nat) : List Char :=
  (pstr (match n with
  | 1 => "cento" | 2 => "duzentos" | 3 => "trezentos" | 4 => "quatrocentos"
  | 5 => "quinhentos" | 6 => "seiscentos" | 7 => "setecentos"
  | 8 => "oitocentos" | _ => "novecentos"))

/-- Cardinals below 100. -/
def ptBelow100 (n : Nat) : List Char :=
  if n < 20 then ptUnits n
  else ptTens (n / 10) ++ (if n % 10 = 0 then [] else pstr " e " ++ ptUnits (n % 10))

/-- Cardinals below 1000. -/
def ptBelow1000 (n : Nat) : List Char :=
  if n < 100 then ptBelow100 n
  else if n = 100 then pstr "cem"
  else ptHundreds (n / 100) ++ (if n % 100 = 0 then [] else pstr " e " ++ ptBelow100 (n % 100))

/-- Modelled from the spec: the external numeral-to-words collaborator
`num2words(n, lang='pt_BR')` (the num2words library is not part of this
repository; the spec describes it as the arabic-digit-run-to-words
mapping).  Standard Brazilian Portuguese cardinals; the program only calls
it on numbers of at most seven digits. -/
def num2words_ptBR (n : Nat) : List Char :=
  if n < 1000 then ptBelow1000 n
  else if n < 1000000 then
    let milhar := n / 1000
    let resto := n % 1000
    let milStr := if milhar = 1 then pstr "mil" else ptBelow1000 milhar ++ pstr " mil"
    if resto = 0 then milStr
    else milStr ++ (if resto < 100 || resto % 100 = 0 then pstr " e " else pstr " ")
      ++ ptBelow1000 resto
  else
    let mi := n / 1000000
    let resto := n % 1000000
    let miStr := if mi = 1 then pstr "um milhão" else ptBelow1000 mi ++ pstr " milhões"
    if resto = 0 then miStr
    else miStr ++ (if resto < 100 || resto % 100 = 0 then pstr " e " else pstr " ")
      ++ (if resto < 1000 then ptBelow1000 resto
          else (if resto / 1000 = 1 then pstr "mil" else ptBelow1000 (resto / 1000) ++ pstr " mil")
            ++ (if resto % 1000 = 0 then []
                else (if resto % 1000 < 100 || resto % 100 = 0 then pstr " e " else pstr " ")
                  ++ ptBelow1000 (resto % 1000)))

/-- Ordinal units (1–9). -/
def ptOrdUnits (n : Nat) : List Char :=
  (pstr (match n with
  | 1 => "primeiro" | 2 => "segundo" | 3 => "terceiro" | 4 => "quarto"
  | 5 => "quinto" | 6 => "sexto" | 7 => "sétimo" | 8 => "oitavo" | _ => "nono"))

/-- Ordinal tens. -/
def ptOrdTens (n : Nat) : List Char :=
  (pstr (match n with
  | 1 => "décimo" | 2 => "vigésimo" | 3 => "trigésimo" | 4 => "quadragésimo"
  | 5 => "quinquagésimo" | 6 => "sexagésimo" | 7 => "septuagésimo"
  | 8 => "octogésimo" | _ => "nonagésimo"))

/-- Ordinal hundreds. -/
def ptOrdHundreds (n : Nat) : List Char :=
  (pstr (match n with
  | 1 => "centésimo" | 2 => "ducentésimo" | 3 => "trecentésimo"
  | 4 => "quadringentésimo" | 5 => "quingentésimo" | 6 => "sexcentésimo"
  | 7 => "septingentésimo" | 8 => "octingentésimo" | _ => "nongentésimo"))

/-- Modelled from the spec: the external ordinal collaborator
`num2words(n, lang='pt_BR', to='ordinal')` (masculine form). -/
def num2wordsOrd_ptBR (n : Nat) : List Char :=
  let below100 := fun (m : Nat) =>
    if m = 0 then ([] : List Char)
    else if m < 10 then ptOrdUnits m
    else ptOrdTens (m / 10) ++ (if m % 10 = 0 then [] else ' ' :: ptOrdUnits (m % 10))
  let below1000 := fun (m : Nat) =>
    if m < 100 then below100 m
    else ptOrdHundreds (m / 100) ++ (if m % 100 = 0 then [] else ' ' :: below100 (m % 100))
  if n = 0 then pstr "zero"
  else if n < 1000 then below1000 n
  else (if n / 1000 = 1 then pstr "milésimo"
        else below1000 (n / 1000) ++ pstr " milésimo")
    ++ (if n % 1000 = 0 then [] else ' ' :: below1000 (n % 1000))

/-- Embeds `ABREVIACOES_QUE_NAO_TERMINAM_FRASE`. -/
def abrevSet : List (List Char) :=
  [pstr "sr.", pstr "sra.", pstr "srta.", pstr "dr.", pstr "dra.", pstr "prof.",
   pstr "profa.", pstr "eng.", pstr "exmo.", pstr "exma.", pstr "pe.", pstr "rev.",
   pstr "ilmo.", pstr "ilma.", pstr "gen.", pstr "cel.", pstr "maj.", pstr "cap.",
   pstr "ten.", pstr "sgt.", pstr "cb.", pstr "sd.", pstr "me.", pstr "ms.",
   pstr "msc.", pstr "esp.", pstr "av.", pstr "r.", pstr "pç.", pstr "esq.",
   pstr "trav.", pstr "jd.", pstr "pq.", pstr "rod.", pstr "km.", pstr "apt.",
   pstr "ap.", pstr "bl.", pstr "cj.", pstr "cs.", pstr "ed.", pstr "nº",
   pstr "no.", pstr "uf.", pstr "cep.", pstr "est.", pstr "mun.", pstr "dist.",
   pstr "zon.", pstr "reg.", pstr "kg.", pstr "cm.", pstr "mm.", pstr "lt.",
   pstr "ml.", pstr "mg.", pstr "seg.", pstr "min.", pstr "hr.", pstr "ltda.",
   pstr "s.a.", pstr "s/a", pstr "cnpj.", pstr "cpf.", pstr "rg.", pstr "proc.",
   pstr "ref.", pstr "cod.", pstr "tel.", pstr "etc.", pstr "p.ex.", pstr "ex.",
   pstr "i.e.", pstr "e.g.", pstr "vs.", pstr "cf.", pstr "op.cit.", pstr "loc.cit.",
   pstr "fl.", pstr "fls.", pstr "pag.", pstr "p.", pstr "pp.", pstr "u.s.",
   pstr "e.u.a.", pstr "o.n.u.", pstr "i.b.m.", pstr "h.p.", pstr "obs.",
   pstr "att.", pstr "resp.", pstr "publ.",
   pstr "doutora", pstr "senhora", pstr "senhor", pstr "doutor",
   pstr "professor", pstr "professora", pstr "general"]

/-- Embeds `ABREVIACOES_MAP_LOWER`. -/
def abrevMapLower : List (List Char × List Char) :=
  [(pstr "dr", pstr "Doutor"), (pstr "d", pstr "Dona"), (pstr "dra", pstr "Doutora"),
   (pstr "sr", pstr "Senhor"), (pstr "sra", pstr "Senhora"), (pstr "srta", pstr "Senhorita"),
   (pstr "prof", pstr "Professor"), (pstr "profa", pstr "Professora"),
   (pstr "eng", pstr "Engenheiro"), (pstr "engª", pstr "Engenheira"),
   (pstr "adm", pstr "Administrador"), (pstr "adv", pstr "Advogado"),
   (pstr "exmo", pstr "Excelentíssimo"), (pstr "exma", pstr "Excelentíssima"),
   (pstr "v.exa", pstr "Vossa Excelência"), (pstr "v.sa", pstr "Vossa Senhoria"),
   (pstr "av", pstr "Avenida"), (pstr "r", pstr "Rua"), (pstr "km", pstr "Quilômetro"),
   (pstr "etc", pstr "etcétera"), (pstr "ref", pstr "Referência"),
   (pstr "pag", pstr "Página"), (pstr "pags", pstr "Páginas"),
   (pstr "fl", pstr "Folha"), (pstr "fls", pstr "Folhas"), (pstr "pe", pstr "Padre"),
   (pstr "dept", pstr "Departamento"), (pstr "depto", pstr "Departamento"),
   (pstr "univ", pstr "Universidade"), (pstr "inst", pstr "Instituição"),
   (pstr "est", pstr "Estado"), (pstr "tel", pstr "Telefone"),
   (pstr "eua", pstr "Estados Unidos da América"), (pstr "ed", pstr "Edição"),
   (pstr "ltda", pstr "Limitada")]

/-- The keys of `ABREVIACOES_MAP_LOWER` without `.` or `ª`, in dictionary
order (`chaves_simples`). -/
def abrevKeys : List (List Char) :=
  [pstr "dr", pstr "d", pstr "dra", pstr "sr", pstr "sra", pstr "srta",
   pstr "prof", pstr "profa", pstr "eng", pstr "adm", pstr "adv", pstr "exmo",
   pstr "exma", pstr "av", pstr "r", pstr "km", pstr "etc", pstr "ref",
   pstr "pag", pstr "pags", pstr "fl", pstr "fls", pstr "pe", pstr "dept",
   pstr "depto", pstr "univ", pstr "inst", pstr "est", pstr "tel", pstr "eua",
   pstr "ed", pstr "ltda"]

/-- Embeds `CONVERSAO_CAPITULOS_EXTENSO_PARA_NUM`. -/
def conversaoCapExtenso : List (List Char × List Char) :=
  [(pstr "UM", pstr "1"), (pstr "DOIS", pstr "2"), (pstr "TRÊS", pstr "3"),
   (pstr "QUATRO", pstr "4"), (pstr "CINCO", pstr "5"), (pstr "SEIS", pstr "6"),
   (pstr "SETE", pstr "7"), (pstr "OITO", pstr "8"), (pstr "NOVE", pstr "9"),
   (pstr "DEZ", pstr "10"), (pstr "ONZE", pstr "11"), (pstr "DOZE", pstr "12"),
   (pstr "TREZE", pstr "13"), (pstr "CATORZE", pstr "14"), (pstr "QUINZE", pstr "15"),
   (pstr "DEZESSEIS", pstr "16"), (pstr "DEZESSETE", pstr "17"),
   (pstr "DEZOITO", pstr "18"), (pstr "DEZENOVE", pstr "19"), (pstr "VINTE", pstr "20")]

/-- Modelled as the identity: the character domain handled here (ASCII plus
precomposed Portuguese letters) is NFKC-fixed, so
`unicodedata.normalize('NFKC', texto)` acts as the identity on it. -/
def nfkc (s : List Char) : List Char := s

/-- Embeds `re.sub(r'[\*_#@\[\](){}\\]', ' ', texto)` (single-character class, so
a plain character map). -/
def isMarkupC (c : Char) : Bool :=
  c = '*' || c = '_' || c = '#' || c = '@' || c = '[' || c = ']' ||
  c = '(' || c = ')' || c = Char.ofNat 123 || c = Char.ofNat 125 || c = '\\'

/-- Markup-noise removal. -/
def stripMarkup (s : List Char) : List Char :=
  s.map (fun c => if isMarkupC c then ' ' else c)

/-- Embeds `re.sub(r'[ \t]+', ' ', texto)`: each run of spaces/tabs becomes one
space (`inRun` marks being inside such a run). -/
def collapseSpacesAux (inRun : Bool) : List Char → List Char
  | [] => []
  | c :: rest =>
    if c = ' ' || c = '\t' then
      (if inRun then [] else [' ']) ++ collapseSpacesAux true rest
    else c :: collapseSpacesAux false rest

/-- Horizontal-whitespace collapse. -/
def collapseSpaces (s : List Char) : List Char := collapseSpacesAux false s

/-- Embeds `"\n".join([linha.strip() for linha in texto.splitlines() if linha.strip()])`. -/
def stripLines (s : List Char) : List Char :=
  joinNL (((pySplitlines s).map pyStrip).filter (fun l => !l.isEmpty))

/-- Embeds `re.sub(r'(?<!\n)\n(?!\n)', ' ', texto)`: lone newlines become spaces
(`prev` is the previous character of the original string). -/
def singleNLAux (prev : Option Char) : List Char → List Char
  | [] => []
  | c :: rest =>
    if c = '\n' ∧ prev ≠ some '\n' ∧ rest.head? ≠ some '\n' then
      ' ' :: singleNLAux (some '\n') rest
    else c :: singleNLAux (some c) rest

/-- Lone-newline-to-space pass. -/
def singleNLtoSpace (s : List Char) : List Char := singleNLAux none s

/-- Embeds `re.sub(r'\n{atLeast,}', '\n' * replWith, texto)`: newline runs of at
least `atLeast` become `replWith` newlines (fuel = input length). -/
def collapseNLRunsF (atLeast replWith : Nat) : Nat → List Char → List Char
  | 0, s => s
  | _ + 1, [] => []
  | fuel + 1, c :: rest =>
    if c = '\n' then
      let run := 1 + (rest.takeWhile (fun d => d = '\n')).length
      (if atLeast ≤ run then List.replicate replWith '\n' else List.replicate run '\n')
        ++ collapseNLRunsF atLeast replWith fuel (rest.dropWhile (fun d => d = '\n'))
    else c :: collapseNLRunsF atLeast replWith fuel rest

/-- Newline-run collapse. -/
def collapseNLRuns (atLeast replWith : Nat) (s : List Char) : List Char :=
  collapseNLRunsF atLeast replWith s.length s

/-- Embeds `re.search(r'[.!?…]$', buffer)`. -/
def endsStrongPunct (s : List Char) : Bool :=
  match s.getLast? with
  | some c => isSentDelim c
  | none => false

/-- Embeds `re.search(r'\b[A-Z]\.$', buffer)` (the buffers end in no newline). -/
def endsSiglaPonto (s : List Char) : Bool :=
  match s.reverse with
  | '.' :: c :: rest =>
    isUpperAZ c && (match rest with
      | [] => true
      | d :: _ => !isWordC d)
  | _ => false

/-- The `juntar_com_anterior` decision of the paragraph-reflow loop of
`formatar_texto_para_tts` (`buffer` is non-empty, `ls` the stripped line). -/
def reflowJuntar (buffer ls : List Char) : Bool :=
  let ultima := pyLower (lastWord buffer)
  let termAbrev := abrevSet.contains ultima
  let termSigla := endsSiglaPonto buffer
  let termPunct := endsStrongPunct buffer
  let naoJuntar := termPunct && !termAbrev && !termSigla &&
    (match ls.head? with
     | some c0 => isUpperC c0
     | none => false)
  if termAbrev || termSigla then true
  else if !naoJuntar && !termPunct then true
  else if [pstr "doutora", pstr "senhora", pstr "senhor", pstr "doutor"].contains
      (pyLower buffer) then true
  else false

/-- The per-paragraph line loop of the reflow pass. -/
def reflowAux (buffer : List Char) : List (List Char) → List (List Char)
  | [] => if buffer.isEmpty then [] else [buffer]
  | l :: rest =>
    let ls := pyStrip l
    if ls.isEmpty then reflowAux buffer rest
    else if buffer.isEmpty then reflowAux ls rest
    else if reflowJuntar buffer ls then reflowAux (buffer ++ ' ' :: ls) rest
    else buffer :: reflowAux ls rest

/-- The full reflow: paragraphs split on blank-line markers, each rejoined
into logical sentences. -/
def reflowParagraphs (s : List Char) : List (List Char) :=
  ((splitDoubleNL s).map (fun par =>
    let pb := pyStrip par
    if pb.isEmpty then [] else reflowAux [] (splitChar '\n' pb))).flatten

/-- Case-insensitive single character. -/
def chCI (c : Char) : RE := RE.ch (fun d => toLowerC d = toLowerC c)

/-- Case-sensitive literal string. -/
def strCS (s : List Char) : RE := seqAll (s.map chEq)

/-- Case-insensitive literal string. -/
def strCI (s : List Char) : RE := seqAll (s.map chCI)

/-- The print-shop-stamp line pattern of `_remover_metadados_pdf`
(`^\s*[\w\d_-]+\.(indd|pdf)\s+\d+\s+\d{2}/\d{2}/\d{2,4}\s+\d{1,2}:\d{2}(:\d{2})?\s*([AP]M)?\s*$`,
IGNORECASE; the groups do not affect the matched span and are omitted). -/
def metadataRE : RE := seqAll
  [RE.star pyIsSpace, RE.plus (fun c => isWordC c || c = '-'), chEq '.',
   RE.alt (strCI (pstr "indd")) (strCI (pstr "pdf")),
   RE.plus pyIsSpace, RE.plus Char.isDigit, RE.plus pyIsSpace,
   RE.rep Char.isDigit 2 2, chEq '/', RE.rep Char.isDigit 2 2, chEq '/',
   RE.rep Char.isDigit 2 4,
   RE.plus pyIsSpace, RE.rep Char.isDigit 1 2, chEq ':', RE.rep Char.isDigit 2 2,
   RE.opt (RE.seq (chEq ':') (RE.rep Char.isDigit 2 2)),
   RE.star pyIsSpace,
   RE.opt (RE.seq (RE.ch (fun c => toLowerC c = 'a' || toLowerC c = 'p')) (chCI 'M')),
   RE.star pyIsSpace, RE.eos]

/-- Embeds `_remover_metadados_pdf`: a matching line is replaced by the empty
string (the line itself stays, emptied). -/
def remover_metadados_pdf (s : List Char) : List Char :=
  joinNL ((splitChar '\n' s).map (fun l =>
    if (matchHere metadataRE l none).isSome then [] else l))

/-- Embeds `^\s*\d+\s*$` (page-number-only line). -/
def pageNumRE : RE := seqAll
  [RE.star pyIsSpace, RE.plus Char.isDigit, RE.star pyIsSpace, RE.eos]

/-- Embeds `\s{3,}\d+\s*$` (trailing page number). -/
def trailingNumRE : RE := seqAll
  [RE.rep pyIsSpace 3 3, RE.star pyIsSpace, RE.plus Char.isDigit,
   RE.star pyIsSpace, RE.eos]

/-- Embeds `_remover_numeros_pagina_isolados`: drops digit-only lines and strips
trailing page numbers. -/
def remover_numeros_pagina_isolados (s : List Char) : List Char :=
  joinNL (((pySplitlines s).filter
      (fun l => !(matchHere pageNumRE l none).isSome)).map
    (fun l => reSub trailingNumRE (fun _ => []) l))

/-- Embeds `re.sub(r'(\w+)-\s*\n\s*(\w+)', r'\1\2', texto)`. -/
def hyphenRE : RE := seqAll
  [RE.grp 1 (RE.plus isWordC), chEq '-', RE.star pyIsSpace, chEq '\n',
   RE.star pyIsSpace, RE.grp 2 (RE.plus isWordC)]

/-- Embeds `_corrigir_hifenizacao_quebras`. -/
def corrigir_hifenizacao_quebras (s : List Char) : List Char :=
  reSub hyphenRE (fun caps => ((capGet caps 1).getD []) ++ ((capGet caps 2).getD [])) s

/-- Embeds `[íi]` under IGNORECASE. -/
def iiClass (d : Char) : Bool := toLowerC d = 'i' || toLowerC d = 'í'

/-- Embeds `[IVXLCDM]` under IGNORECASE. -/
def romanCI (d : Char) : Bool := (pstr "IVXLCDM").contains (toUpperC d)

/-- Embeds `[A-ZÇÉÊÓÃÕa-zçéêóãõ]` (IGNORECASE adds nothing new). -/
def chapLetterClass (d : Char) : Bool :=
  isUpperAZ d || isLowerAZ d || (pstr "ÇÉÊÓÃÕçéêóãõ").contains d

/-- Embeds `[^\n]` / `.`. -/
def notNL (c : Char) : Bool := c ≠ '\n'

/-- Embeds `\S`. -/
def nonWS (c : Char) : Bool := !pyIsSpace c

/-- The first chapter pattern of `_formatar_numeracao_capitulos`:
`(?i)(cap[íi]tulo|cap\.?)\s+(?:(\d+|[IVXLCDM]+)|([A-ZÇÉÊÓÃÕa-zçéêóãõ]+))\s*[:\-.]?\s*(?=\S)([^\n]*)?`. -/
def cap1RE : RE := seqAll
  [RE.grp 1 (RE.alt
    (seqAll [chCI 'c', chCI 'a', chCI 'p', RE.ch iiClass, chCI 't', chCI 'u',
      chCI 'l', chCI 'o'])
    (seqAll [chCI 'c', chCI 'a', chCI 'p', RE.opt (chEq '.')])),
   RE.plus pyIsSpace,
   RE.alt (RE.grp 2 (RE.alt (RE.plus Char.isDigit) (RE.plus romanCI)))
          (RE.grp 3 (RE.plus chapLetterClass)),
   RE.star pyIsSpace, RE.opt (RE.ch (fun c => c = ':' || c = '-' || c = '.')),
   RE.star pyIsSpace,
   RE.look nonWS,
   RE.grp 4 (RE.star notNL)]

/-- Embeds `substituir_cap` (the replacement function of the first chapter sub). -/
def substituir_cap (caps : Caps) : List Char :=
  let tipo := pyUpper ((capGet caps 1).getD [])
  let numeroFinal :=
    match capGet caps 2 with
    | some nr => pyUpper nr
    | none =>
      match capGet caps 3 with
      | some ne =>
        let up := pyUpper (pyStrip ne)
        ((List.find? (fun pr => pr.1 = up) conversaoCapExtenso).map Prod.snd).getD up
      | none => []
  let cabecalho := tipo ++ ' ' :: numeroFinal ++ ['.']
  let titulo := pyStrip ((capGet caps 4).getD [])
  if titulo.isEmpty then pstr "\n\n" ++ cabecalho ++ pstr "\n\n"
  else
    let palavras := (pySplitWS titulo).map (fun p =>
      if pyIsUpper p && p.length > 1 then p else pyCapitalize p)
    pstr "\n\n" ++ cabecalho ++ pstr "\n\n" ++ joinSpace palavras

/-- The second chapter pattern
`CAP[IÍ]TULO\s+([A-ZÇÉÊÓÃÕ]+)\s*[:\-]\s*(.+)` (IGNORECASE). -/
def cap2RE : RE := seqAll
  [strCI (pstr "cap"), RE.ch iiClass, strCI (pstr "tulo"),
   RE.plus pyIsSpace, RE.grp 1 (RE.plus chapLetterClass),
   RE.star pyIsSpace, RE.ch (fun c => c = ':' || c = '-'), RE.star pyIsSpace,
   RE.grp 2 (RE.plus notNL)]

/-- Embeds `substituir_extenso_com_titulo`. -/
def substituir_extenso_com_titulo (caps : Caps) : List Char :=
  let numExt := pyUpper (pyStrip ((capGet caps 1).getD []))
  let titulo := pyTitle (pyStrip ((capGet caps 2).getD []))
  let numero := ((List.find? (fun pr => pr.1 = numExt) conversaoCapExtenso).map
    Prod.snd).getD numExt
  pstr "CAPÍTULO " ++ numero ++ pstr ": " ++ titulo

/-- Embeds `_formatar_numeracao_capitulos`: the two chapter substitutions in
order. -/
def formatar_numeracao_capitulos (s : List Char) : List Char :=
  reSub cap2RE substituir_extenso_com_titulo (reSub cap1RE substituir_cap s)

/-- The pair list of `re.split(r'([.!?…])\s*', texto)`: one delimiter
character per pair, whitespace after it dropped (`skipWS` marks the
position right after an emitted delimiter). -/
def resegAux (cur : List Char) (skipWS : Bool) : List Char → List (List Char × List Char)
  | [] => [(cur.reverse, [])]
  | c :: rest =>
    if skipWS && pyIsSpace c then resegAux cur skipWS rest
    else if isSentDelim c then (cur.reverse, [c]) :: resegAux [] true rest
    else resegAux (c :: cur) false rest

/-- The split of the sentence-resegmentation block. -/
def resegSplit (s : List Char) : List (List Char × List Char) :=
  resegAux [] false s

/-- Embeds `ultima_palavra.rstrip('.!?…')`. -/
def rstripSentDelims (s : List Char) : List Char :=
  (s.reverse.dropWhile isSentDelim).reverse

/-- One backward step of `SIGLA_COM_PONTOS_RE` = `\b([A-Z]\.\s*)+$`
searching: `r` is the reversed remaining string; consume one
`[A-Z]\.\s*` block from the end, accept if a word boundary precedes it,
else try extending with further blocks. -/
def siglaStepF : Nat → List Char → Bool
  | 0, _ => false
  | fuel + 1, r =>
    match r.dropWhile pyIsSpace with
    | '.' :: c :: rest =>
      if isUpperAZ c then
        (match rest.head? with
         | none => true
         | some d => !isWordC d) || siglaStepF fuel rest
      else false
    | _ => false

/-- Embeds `SIGLA_COM_PONTOS_RE.search(segmento) is not None`. -/
def siglaSearch (s : List Char) : Bool := siglaStepF s.length s.reverse

/-- Embeds `re.search(r'[.!?…)]$', s)`. -/
def endsPunctParen (s : List Char) : Bool :=
  match s.getLast? with
  | some c => isSentDelim c || c = ')'
  | none => false

/-- The buffer loop of the sentence-resegmentation block of
`formatar_texto_para_tts`, producing `texto_reconstruido`. -/
def resegLoop (buffer : List Char) : List (List Char × List Char) → List Char
  | [] =>
    if buffer.isEmpty then []
    else buffer ++ (if endsPunctParen buffer then [] else ['.']) ++ pstr "\n\n"
  | (txt, p) :: rest =>
    let seg := pyStrip (txt ++ p)
    if seg.isEmpty then resegLoop buffer rest
    else
      let ultima := pyLower (lastWord seg)
      let semPonto := if p.isEmpty then ultima else rstripSentDelims ultima
      let termAbrev := abrevSet.contains ultima || abrevSet.contains semPonto
      let termSigla := siglaSearch seg
      let naoQuebrar := (p == ['.']) && (termAbrev || termSigla)
      let buffer2 := if buffer.isEmpty then seg else buffer ++ ' ' :: seg
      if naoQuebrar then resegLoop buffer2 rest
      else buffer2 ++ pstr "\n\n" ++ resegLoop [] rest

/-- Embeds `^\s*CAP[ÍI]TULO\s+[\w\d]+\.?\s*$` (IGNORECASE). -/
def chapLineRE : RE := seqAll
  [RE.star pyIsSpace, strCI (pstr "cap"), RE.ch iiClass, strCI (pstr "tulo"),
   RE.plus pyIsSpace, RE.plus isWordC, RE.opt (chEq '.'), RE.star pyIsSpace, RE.eos]

/-- Embeds `char in "AEIOU"`. -/
def vowelAEIOU (c : Char) : Bool := (pstr "AEIOU").contains c

/-- Embeds `_normalizar_caixa_alta_linhas`. -/
def normalizar_caixa_alta_linhas (s : List Char) : List Char :=
  joinNL ((pySplitlines s).map (fun linha =>
    if (matchHere chapLineRE linha none).isSome then linha
    else if pyIsUpper linha && (pyStrip linha).length > 3 && linha.any isAlphaC then
      joinSpace ((pySplitWS linha).map (fun p =>
        if p.length > 1 && pyIsUpper p && pyIsAlpha p &&
            !([pstr "I", pstr "A", pstr "E", pstr "O", pstr "U"].contains p) &&
            !(p.any vowelAEIOU && p.any (fun c => !vowelAEIOU c) && p.length ≤ 4)
        then p else pyCapitalize p))
    else linha))

/-- Embeds `[oaºª]` under IGNORECASE. -/
def ordClass (c : Char) : Bool :=
  c = 'o' || c = 'a' || c = 'O' || c = 'A' || c = 'º' || c = 'ª'

/-- Embeds `\b(\d+)\s*([oaºª])(?!\w)` (IGNORECASE). -/
def ordinalRE : RE := seqAll
  [RE.bnd, RE.grp 1 (RE.plus Char.isDigit), RE.star pyIsSpace,
   RE.grp 2 (RE.ch ordClass), RE.neg isWordC]

/-- Embeds `substituir_ordinal`. -/
def substituir_ordinal (caps : Caps) : List Char :=
  let numero := (capGet caps 1).getD []
  let term := pyLower ((capGet caps 2).getD [])
  let ordMasc := num2wordsOrd_ptBR (digitsToNat numero)
  if term == pstr "a" || term == pstr "ª" then
    (match ordMasc.getLast? with
     | some 'o' => ordMasc.dropLast ++ ['a']
     | _ => ordMasc)
  else ordMasc

/-- Embeds `_converter_ordinais_para_extenso`. -/
def converter_ordinais_para_extenso (s : List Char) : List Char :=
  reSub ordinalRE substituir_ordinal s

/-- Embeds `CASOS_ESPECIAIS_RE` (three IGNORECASE patterns with fixed
replacements). -/
def casosEspeciais : List (RE × List Char) :=
  [(seqAll [RE.bnd, chCI 'v', chEq '.', chCI 'e', chCI 'x', chCI 'a', chEq '.',
      RE.look pyIsSpace], pstr "Vossa Excelência"),
   (seqAll [RE.bnd, chCI 'v', chEq '.', chCI 's', chCI 'a', chEq '.',
      RE.look pyIsSpace], pstr "Vossa Senhoria"),
   (seqAll [RE.bnd, chCI 'e', chCI 'n', chCI 'g', chCI 'ª', chEq '.',
      RE.look pyIsSpace], pstr "Engenheira")]

/-- Embeds `\b(dr|d|dra|…)\.` (IGNORECASE, alternation in dictionary order). -/
def abrevSimpleRE : RE := seqAll
  [RE.bnd, RE.grp 1 (altAll (abrevKeys.map strCI)), chEq '.']

/-- Embeds `replace_abrev_com_ponto`. -/
def replace_abrev_com_ponto (caps : Caps) : List Char :=
  match capGet caps 1 with
  | some found =>
    match List.find? (fun pr => pr.1 = pyLower found) abrevMapLower with
    | some pr => pr.2
    | none => found ++ ['.']
  | none => ['.']

/-- Embeds `\b\d+\b`. -/
def numeroRE : RE := seqAll [RE.bnd, RE.grp 1 (RE.plus Char.isDigit), RE.bnd]

/-- Embeds `_converter_numero_match`: 4-digit years 1900–2100 and numbers longer
than 7 digits pass through; the rest are spelled out. -/
def converter_numero_match (caps : Caps) : List Char :=
  let num := (capGet caps 1).getD []
  if num.length = 4 && 1900 ≤ digitsToNat num && digitsToNat num ≤ 2100 then num
  else if 7 < num.length then num
  else num2words_ptBR (digitsToNat num)

/-- Embeds `R\$\s*(\d{1,3}(?:\.\d{3})*),(\d{2})`; `b` bounds the starred group
(callers pass the input length). -/
def currency1RE (b : Nat) : RE := seqAll
  [chEq 'R', chEq '$', RE.star pyIsSpace,
   RE.grp 1 (RE.seq (RE.rep Char.isDigit 1 3)
     (RE.many (RE.seq (chEq '.') (RE.rep Char.isDigit 3 3)) b)),
   chEq ',', RE.grp 2 (RE.rep Char.isDigit 2 2)]

/-- Embeds `_converter_valor_monetario_match`. -/
def converter_valor_monetario_match (caps : Caps) : List Char :=
  let vi := ((capGet caps 1).getD []).filter (fun c => c ≠ '.')
  num2words_ptBR (digitsToNat vi) ++ pstr " reais"

/-- Embeds `R\$\s*(\d+)(?:,00)?`. -/
def currency2RE : RE := seqAll
  [chEq 'R', chEq '$', RE.star pyIsSpace, RE.grp 1 (RE.plus Char.isDigit),
   RE.opt (seqAll [chEq ',', chEq '0', chEq '0'])]

/-- Embeds `\b(\d+)\s*-\s*(\d+)\b`. -/
def rangeRE : RE := seqAll
  [RE.bnd, RE.grp 1 (RE.plus Char.isDigit), RE.star pyIsSpace, chEq '-',
   RE.star pyIsSpace, RE.grp 2 (RE.plus Char.isDigit), RE.bnd]

/-- Embeds `_expandir_abreviacoes_numeros`: special cases, then dictionary
abbreviations, then digit runs, then currency, then numeric ranges. -/
def expandir_abreviacoes_numeros (s : List Char) : List Char :=
  let t1 := casosEspeciais.foldl (fun acc pr => reSub pr.1 (fun _ => pr.2) acc) s
  let t2 := reSub abrevSimpleRE replace_abrev_com_ponto t1
  let t3 := reSub numeroRE converter_numero_match t2
  let t4 := reSub (currency1RE t3.length) converter_valor_monetario_match t3
  let t5 := reSub currency2RE
    (fun caps => num2words_ptBR (digitsToNat ((capGet caps 1).getD [])) ++ pstr " reais") t4
  reSub rangeRE (fun caps =>
    num2words_ptBR (digitsToNat ((capGet caps 1).getD [])) ++ pstr " a "
      ++ num2words_ptBR (digitsToNat ((capGet caps 2).getD []))) t5

/-- Embeds `formas_expandidas_tratamento`. -/
def formasExpandidas : List (List Char) :=
  [pstr "Senhor", pstr "Senhora", pstr "Doutor", pstr "Doutora",
   pstr "Professor", pstr "Professora", pstr "Excelentíssimo", pstr "Excelentíssima"]

/-- The per-form cleanup pair `\b<forma>\.\s+([A-Z])` and
`\b<forma>\.([A-Z])` (case-sensitive), both rewritten to `<forma> \1`. -/
def tratamentoCleanup (s : List Char) : List Char :=
  formasExpandidas.foldl (fun acc forma =>
    reSub (seqAll [RE.bnd, strCS forma, chEq '.', RE.grp 1 (RE.ch isUpperAZ)])
      (fun caps => forma ++ ' ' :: ((capGet caps 1).getD []))
      (reSub (seqAll [RE.bnd, strCS forma, chEq '.', RE.plus pyIsSpace,
          RE.grp 1 (RE.ch isUpperAZ)])
        (fun caps => forma ++ ' ' :: ((capGet caps 1).getD [])) acc)) s

/-- The final paragraph pass of `formatar_texto_para_tts`: every non-empty
paragraph that is not a chapter-header line and lacks terminal punctuation
receives a synthesized period. -/
def finalParagraphPass (s : List Char) : List Char :=
  joinDoubleNL ((((splitDoubleNL s).map pyStrip).filter (fun p => !p.isEmpty)).map
    (fun p =>
      let firstLine := pyStrip (((splitChar '\n' p).head?).getD [])
      if !endsPunctParen p && !(matchHere chapLineRE firstLine none).isSome then
        p ++ ['.']
      else p))

/-- Embeds `formatar_texto_para_tts`: the complete ordered normalization
pipeline. -/
def formatar_texto_para_tts (texto_bruto : List Char) : List Char :=
  let t1 := nfkc texto_bruto
  let t2 := replaceFF t1
  let t3 := stripMarkup t2
  let t4 := collapseSpaces t3
  let t5 := stripLines t4
  let t6 := joinDoubleNL (reflowParagraphs t5)
  let t7 := collapseSpaces t6
  let t8 := singleNLtoSpace t7
  let t9 := collapseNLRuns 3 2 t8
  let t10 := remover_metadados_pdf t9
  let t11 := remover_numeros_pagina_isolados t10
  let t12 := corrigir_hifenizacao_quebras t11
  let t13 := formatar_numeracao_capitulos t12
  let t14 := pyStrip (resegLoop [] (resegSplit t13))
  let t15 := normalizar_caixa_alta_linhas t14
  let t16 := converter_ordinais_para_extenso t15
  let t17 := expandir_abreviacoes_numeros t16
  let t18 := tratamentoCleanup t17
  let t19 := finalParagraphPass t18
  let t20 := pyStrip (collapseSpaces t19)
  let t21 := collapseNLRuns 2 2 t20
  pyStrip t21

end TTS

namespace TTS

theorem dropWhile_eq_self_of_head {p : Char → Bool} {s : List Char}
    (h : ∀ c ∈ s.head?, p c = false) : s.dropWhile p = s := by
  cases s with
  | nil => rfl
  | cons a t => exact List.dropWhile_cons_of_neg (by simp [h a (by simp)])

theorem head?_dropWhile_false (p : Char → Bool) (s : List Char) :
    ∀ c ∈ (s.dropWhile p).head?, p c = false := by
  have h := List.head?_dropWhile_not p s
  intro c hc
  revert h
  cases hh : (s.dropWhile p).head? with
  | none => simp [hh] at hc
  | some x =>
    intro h
    simp only [hh] at h hc
    simp only [Option.mem_def, Option.some.injEq] at hc
    simpa [hc] using h

theorem trimmed_pyStrip_eq {s : List Char} (h : Trimmed s) : pyStrip s = s := by
  unfold pyStrip
  rw [dropWhile_eq_self_of_head h.1, dropWhile_eq_self_of_head (by simpa using h.2),
    List.reverse_reverse]

theorem getLast?_dropWhile_mem {p : Char → Bool} (l : List Char) :
    ∀ c ∈ (l.dropWhile p).getLast?, c ∈ l.getLast? := by
  intro c hc
  have hsuf : (l.dropWhile p) <:+ l := List.dropWhile_suffix p
  obtain ⟨t, ht⟩ := hsuf
  have hne : l.dropWhile p ≠ [] := by
    intro hnil; rw [hnil] at hc; simp at hc
  rw [← ht, List.getLast?_append]
  cases hh : (l.dropWhile p).getLast? with
  | none => simp [hh] at hc
  | some x =>
    simp only [hh] at hc
    simp only [Option.mem_def, Option.some.injEq] at hc
    simp [hh, hc, Option.or]

theorem trimmed_of_pyStrip (s : List Char) : Trimmed (pyStrip s) := by
  unfold pyStrip Trimmed
  constructor
  · intro c hc
    rw [List.head?_reverse] at hc
    have hc2 : c ∈ ((s.dropWhile pyIsSpace).reverse.dropWhile pyIsSpace).getLast? →
        c ∈ (s.dropWhile pyIsSpace).reverse.getLast? :=
      getLast?_dropWhile_mem (s.dropWhile pyIsSpace).reverse c
    have hc2 := hc2 hc
    rw [List.getLast?_reverse] at hc2
    exact head?_dropWhile_false pyIsSpace s c hc2
  · intro c hc
    rw [List.getLast?_reverse] at hc
    exact head?_dropWhile_false pyIsSpace _ c hc

theorem trimmed_nil : Trimmed ([] : List Char) := by
  constructor <;> intro c hc <;> simp at hc

theorem trimmed_append_sep {a b : List Char} (ha : Trimmed a) (hb : Trimmed b)
    (na : a ≠ []) (nb : b ≠ []) : Trimmed (a ++ ' ' :: b) := by
  constructor
  · intro c hc
    apply ha.1
    cases a with
    | nil => exact absurd rfl na
    | cons x t => simpa using hc
  · intro c hc
    apply hb.2
    rw [List.getLast?_append] at hc
    have hbl : b.getLast? ≠ none := by
      intro hnil
      exact nb (List.getLast?_eq_none_iff.mp hnil)
    cases hbg : b.getLast? with
    | none => exact absurd hbg hbl
    | some x =>
      rw [List.getLast?_cons, hbg] at hc
      simpa [hbg] using hc

theorem hardSlicesAux_flatten (limite : Nat) (hl : 0 < limite) :
    ∀ (fuel : Nat) (s : List Char), s.length ≤ fuel →
      (hardSlicesAux limite fuel s).flatten = s := by
  intro fuel
  induction fuel with
  | zero =>
    intro s hs
    rw [List.eq_nil_of_length_eq_zero (Nat.le_zero.mp hs)]
    rfl
  | succ n ih =>
    intro s hs
    cases s with
    | nil => rfl
    | cons c rest =>
      have hdrop : ((c :: rest).drop limite).length ≤ n := by
        rw [List.length_drop]
        simp only [List.length_cons] at hs ⊢
        omega
      rw [hardSlicesAux, if_neg (Nat.pos_iff_ne_zero.mp hl), List.flatten_cons,
        ih _ hdrop, List.take_append_drop]

theorem hardSlices_flatten (limite : Nat) (hl : 0 < limite) (t : List Char) :
    (hardSlices limite t).flatten = t :=
  hardSlicesAux_flatten limite hl t.length t (Nat.le_refl _)

theorem hardSlicesAux_mem (limite : Nat) (hl : 0 < limite) :
    ∀ (fuel : Nat) (s c : List Char), s.length ≤ fuel → c ∈ hardSlicesAux limite fuel s →
      c.length ≤ limite ∧
        ∃ i, c = (s.drop (i * limite)).take limite ∧
          (c.length = limite ∨ s.length ≤ (i + 1) * limite) := by
  intro fuel
  induction fuel with
  | zero =>
    intro s c _ hc
    simp [hardSlicesAux] at hc
  | succ n ih =>
    intro s c hs hc
    cases s with
    | nil => simp [hardSlicesAux] at hc
    | cons x rest =>
      rw [hardSlicesAux, if_neg (Nat.pos_iff_ne_zero.mp hl)] at hc
      rcases List.mem_cons.mp hc with hc1 | hc2
      · subst hc1
        refine ⟨by rw [List.length_take]; exact Nat.min_le_left _ _, 0, by simp, ?_⟩
        by_cases hlen : limite ≤ (x :: rest).length
        · left
          rw [List.length_take]
          exact Nat.min_eq_left hlen
        · right
          simp only [Nat.zero_add, Nat.one_mul]
          omega
      · have hdrop : ((x :: rest).drop limite).length ≤ n := by
          rw [List.length_drop]
          simp only [List.length_cons] at hs ⊢
          omega
        obtain ⟨hlen, i, hceq, hdisj⟩ := ih _ c hdrop hc2
        refine ⟨hlen, i + 1, ?_, ?_⟩
        · rw [hceq, List.drop_drop]
          congr 2
          ring
        · rcases hdisj with h1 | h2
          · exact Or.inl h1
          · right
            rw [List.length_drop] at h2
            have : (i + 1 + 1) * limite = (i + 1) * limite + limite := by ring
            omega

theorem hardSlices_mem (limite : Nat) (hl : 0 < limite) (t c : List Char)
    (hc : c ∈ hardSlices limite t) :
    c.length ≤ limite ∧
      ∃ i, c = (t.drop (i * limite)).take limite ∧
        (c.length = limite ∨ t.length ≤ (i + 1) * limite) :=
  hardSlicesAux_mem limite hl t.length t c (Nat.le_refl _) hc

theorem chunkLoop_mem (limite : Nat) (hl : 0 < limite)
    (pairs : List (List Char × List Char)) :
    ∀ seg, Trimmed seg → seg.length ≤ limite →
      ∀ c ∈ chunkLoop limite pairs seg,
        c.length ≤ limite ∧ (pyStrip c = c ∨ SliceOfOversize limite c) := by
  induction pairs with
  | nil =>
    intro seg hseg hlen c hc
    rw [chunkLoop] at hc
    by_cases he : seg.isEmpty
    · simp [he] at hc
    · rw [if_neg he] at hc
      rcases List.mem_singleton.mp hc with rfl
      exact ⟨hlen, Or.inl (trimmed_pyStrip_eq hseg)⟩
  | cons pr rest ih =>
    intro seg hseg hlen c hc
    obtain ⟨f, d⟩ := pr
    rw [chunkLoop] at hc
    by_cases h1 : (pyStrip (pyStrip f ++ pyStrip d)).isEmpty
    · rw [if_pos h1] at hc
      exact ih seg hseg hlen c hc
    · rw [if_neg h1] at hc
      have htrim : Trimmed (pyStrip (pyStrip f ++ pyStrip d)) := trimmed_of_pyStrip _
      by_cases h2 : seg.length + (pyStrip (pyStrip f ++ pyStrip d)).length + 1 ≤ limite
      · rw [if_pos h2] at hc
        by_cases h3 : seg.isEmpty
        · rw [if_pos h3] at hc
          exact ih _ htrim (by omega) c hc
        · rw [if_neg h3] at hc
          refine ih _ ?_ ?_ c hc
          · exact trimmed_append_sep hseg htrim
              (by simpa [List.isEmpty_iff] using h3) (by simpa [List.isEmpty_iff] using h1)
          · simp only [List.length_append, List.length_cons]
            omega
      · rw [if_neg h2] at hc
        rcases List.mem_append.mp hc with hseg' | hrest
        · have h3 : seg.isEmpty = false := by
            by_contra hcon
            simp only [Bool.not_eq_false] at hcon
            simp [hcon] at hseg'
          rw [h3] at hseg'
          simp only [Bool.false_eq_true, if_false] at hseg'
          rcases List.mem_singleton.mp hseg' with rfl
          exact ⟨hlen, Or.inl (trimmed_pyStrip_eq hseg)⟩
        · by_cases h4 : limite < (pyStrip (pyStrip f ++ pyStrip d)).length
          · rw [if_pos h4] at hrest
            rcases List.mem_append.mp hrest with hsl | hloop
            · obtain ⟨hslen, i, hceq, hdisj⟩ := hardSlices_mem limite hl _ c hsl
              exact ⟨hslen, Or.inr ⟨_, i, trimmed_pyStrip_eq htrim, h4, hceq, hdisj⟩⟩
            · exact ih [] trimmed_nil (by simp) c hloop
          · rw [if_neg h4] at hrest
            exact ih _ htrim (by omega) c hrest

/-- C1: for every input text and limit > 0, every chunk returned by
`dividir_texto_para_tts` is non-whitespace, has length at most the limit,
and is either trimmed or a hard-slice of a single over-limit sentence
(slices being exactly `limite` long except the final one). -/
theorem claim_C1 (texto : List Char) (limite : Nat) (hl : 0 < limite)
    (c : List Char) (hc : c ∈ dividir_texto_para_tts texto limite) :
    (pyStrip c).isEmpty = false ∧ c.length ≤ limite ∧
      (pyStrip c = c ∨ SliceOfOversize limite c) := by
  unfold dividir_texto_para_tts at hc
  simp only at hc
  obtain ⟨hmem, hpred⟩ := List.mem_filter.mp hc
  refine ⟨by simpa using hpred, ?_⟩
  obtain ⟨l, hl2, hcl⟩ := List.mem_flatten.mp hmem
  obtain ⟨p, _, hpl⟩ := List.mem_map.mp hl2
  subst hpl
  by_cases h1 : (pyStrip p).isEmpty
  · simp [h1] at hcl
  · rw [if_neg h1] at hcl
    by_cases h2 : (pyStrip p).length ≤ limite
    · rw [if_pos h2] at hcl
      rcases List.mem_singleton.mp hcl with rfl
      exact ⟨h2, Or.inl (trimmed_pyStrip_eq (trimmed_of_pyStrip p))⟩
    · rw [if_neg h2] at hcl
      exact chunkLoop_mem limite hl _ [] trimmed_nil (by simp) c hcl

/-- Witness for C1 at a concrete input. -/
theorem claim_C1_witness :
    (pyStrip (pstr "ab.")).isEmpty = false ∧ (pstr "ab.").length ≤ 5 ∧
      (pyStrip (pstr "ab.") = pstr "ab." ∨ SliceOfOversize 5 (pstr "ab.")) :=
  claim_C1 (pstr "ab. cd") 5 (by decide) (pstr "ab.") (by decide)

theorem delws_append (a b : List Char) : delws (a ++ b) = delws a ++ delws b := by
  simp [delws, List.filter_append]

@[simp]
theorem delws_nil : delws [] = [] := rfl

theorem delws_cons_space (c : Char) (h : pyIsSpace c = true) (s : List Char) :
    delws (c :: s) = delws s := by
  simp [delws, List.filter_cons, h]

theorem delws_dropWhile (s : List Char) :
    delws (s.dropWhile pyIsSpace) = delws s := by
  induction s with
  | nil => rfl
  | cons c t ih =>
    by_cases h : pyIsSpace c = true
    · rw [List.dropWhile_cons_of_pos h, ih, delws_cons_space c h]
    · rw [List.dropWhile_cons_of_neg (by simpa using h)]

theorem delws_reverse (s : List Char) : delws s.reverse = (delws s).reverse := by
  simp [delws, List.filter_reverse]

theorem delws_pyStrip (s : List Char) : delws (pyStrip s) = delws s := by
  unfold pyStrip
  rw [delws_reverse, delws_dropWhile, delws_reverse, List.reverse_reverse, delws_dropWhile]

theorem delws_flatten (l : List (List Char)) :
    delws l.flatten = (l.map delws).flatten := by
  induction l with
  | nil => rfl
  | cons h t ih => simp [delws_append, ih]

theorem consHead_ne_nil (c : Char) (l : List (List Char)) : consHead c l ≠ [] := by
  cases l <;> simp [consHead]

theorem map_delws_consHead (c : Char) (l : List (List Char)) (hne : l ≠ []) :
    ((consHead c l).map delws).flatten = delws [c] ++ (l.map delws).flatten := by
  cases l with
  | nil => exact absurd rfl hne
  | cons h t =>
    rw [consHead]
    simp only [List.map_cons, List.flatten_cons]
    have hch : delws (c :: h) = delws [c] ++ delws h := by
      have := delws_append [c] h
      simpa using this
    rw [hch, List.append_assoc]

theorem splitDoubleNL_ne_nil (s : List Char) : splitDoubleNL s ≠ [] := by
  induction s using splitDoubleNL.induct with
  | case1 => simp [splitDoubleNL]
  | case2 rest ih => simp [splitDoubleNL]
  | case3 c rest h ih =>
    rw [splitDoubleNL]
    exact consHead_ne_nil _ _
    exact h

theorem map_delws_splitDoubleNL (s : List Char) :
    ((splitDoubleNL s).map delws).flatten = delws s := by
  induction s using splitDoubleNL.induct with
  | case1 => rfl
  | case2 rest ih =>
    rw [splitDoubleNL]
    simp only [List.map_cons, List.flatten_cons, ih]
    rw [delws_cons_space '\n' (by decide), delws_cons_space '\n' (by decide)]
    rfl
  | case3 c rest h ih =>
    rw [splitDoubleNL]
    rw [map_delws_consHead c _ (splitDoubleNL_ne_nil rest), ih]
    have hd := delws_append [c] rest
    simp only [List.singleton_append] at hd
    rw [← hd]
    exact h

theorem sentSplitAux_content (s : List Char) :
    ∀ t d inD, (inD = false → d = []) →
      ((sentSplitAux t d inD s).map (fun pr => pr.1 ++ pr.2)).flatten
        = t.reverse ++ (d.reverse ++ s) := by
  induction s with
  | nil =>
    intro t d inD _
    cases inD <;> simp [sentSplitAux]
  | cons c rest ih =>
    intro t d inD hinv
    cases inD with
    | true =>
      by_cases hd : isSentDelim c
      · rw [sentSplitAux, if_pos rfl, if_pos hd,
          ih t (c :: d) true (by intro hcon; exact absurd hcon (by simp))]
        simp [List.append_assoc]
      · rw [sentSplitAux, if_pos rfl, if_neg hd]
        simp only [List.map_cons, List.flatten_cons, ih [c] [] false (fun _ => rfl)]
        simp [List.append_assoc]
    | false =>
      rw [hinv rfl]
      by_cases hd : isSentDelim c
      · rw [sentSplitAux]
        simp only [Bool.false_eq_true, if_false, if_pos hd,
          ih t [c] true (by intro hcon; exact absurd hcon (by simp))]
        simp
      · rw [sentSplitAux]
        simp only [Bool.false_eq_true, if_false, if_neg hd,
          ih (c :: t) [] false (fun _ => rfl)]
        simp

theorem sentSplit_content (s : List Char) :
    ((sentSplit s).map (fun pr => pr.1 ++ pr.2)).flatten = s := by
  simpa using sentSplitAux_content s [] [] false (fun _ => rfl)

theorem chunkLoop_delws (limite : Nat) (hl : 0 < limite)
    (pairs : List (List Char × List Char)) :
    ∀ seg, delws (chunkLoop limite pairs seg).flatten
      = delws seg ++ delws ((pairs.map (fun pr => pr.1 ++ pr.2)).flatten) := by
  induction pairs with
  | nil =>
    intro seg
    by_cases h : seg.isEmpty
    · rw [chunkLoop, if_pos h, List.isEmpty_iff.mp h]
      rfl
    · rw [chunkLoop, if_neg h]
      simp [delws]
  | cons pr rest ih =>
    intro seg
    obtain ⟨f, d⟩ := pr
    have hcontent : delws (pyStrip (pyStrip f ++ pyStrip d)) = delws f ++ delws d := by
      rw [delws_pyStrip, delws_append, delws_pyStrip, delws_pyStrip]
    have hmapcons :
        delws ((((f, d) :: rest).map (fun pr => pr.1 ++ pr.2)).flatten)
          = (delws f ++ delws d) ++ delws ((rest.map (fun pr => pr.1 ++ pr.2)).flatten) := by
      simp only [List.map_cons, List.flatten_cons]
      rw [delws_append, delws_append]
    rw [chunkLoop]
    by_cases h1 : (pyStrip (pyStrip f ++ pyStrip d)).isEmpty
    · rw [if_pos h1, ih, hmapcons]
      have : delws f ++ delws d = [] := by
        rw [← hcontent, List.isEmpty_iff.mp h1]
        rfl
      rw [this, List.nil_append]
    · rw [if_neg h1]
      by_cases h2 : seg.length + (pyStrip (pyStrip f ++ pyStrip d)).length + 1 ≤ limite
      · rw [if_pos h2]
        by_cases h3 : seg.isEmpty
        · rw [if_pos h3, ih, hmapcons, List.isEmpty_iff.mp h3, hcontent]
          simp [List.append_assoc]
        · rw [if_neg h3, ih, hmapcons]
          rw [delws_append, delws_cons_space ' ' (by decide), hcontent]
          simp [List.append_assoc]
      · rw [if_neg h2]
        rw [List.flatten_append, delws_append, hmapcons]
        by_cases h4 : limite < (pyStrip (pyStrip f ++ pyStrip d)).length
        · rw [if_pos h4, List.flatten_append, delws_append,
            hardSlices_flatten limite hl, ih, hcontent]
          by_cases h3 : seg.isEmpty
          · rw [if_pos h3, List.isEmpty_iff.mp h3]
            simp [List.append_assoc]
          · rw [if_neg h3]
            simp [List.append_assoc]
        · rw [if_neg h4, ih, hcontent]
          by_cases h3 : seg.isEmpty
          · rw [if_pos h3, List.isEmpty_iff.mp h3]
            simp [List.append_assoc]
          · rw [if_neg h3]
            simp [List.append_assoc]

theorem delws_filter_flatten (l : List (List Char)) :
    delws ((l.filter (fun p => !(pyStrip p).isEmpty)).flatten) = delws l.flatten := by
  induction l with
  | nil => rfl
  | cons h t ih =>
    by_cases hp : (pyStrip h).isEmpty
    · rw [List.filter_cons_of_neg (by simp [hp]), ih, List.flatten_cons, delws_append]
      have : delws h = [] := by
        rw [← delws_pyStrip, List.isEmpty_iff.mp hp]
        rfl
      rw [this, List.nil_append]
    · rw [List.filter_cons_of_pos (by simp [hp]), List.flatten_cons, List.flatten_cons,
        delws_append, delws_append, ih]

theorem delws_paragraph_pieces (limite : Nat) (hl : 0 < limite) (p : List Char) :
    delws ((if (pyStrip p).isEmpty then []
      else if (pyStrip p).length ≤ limite then [pyStrip p]
      else chunkLoop limite (sentSplit (pyStrip p)) []).flatten) = delws p := by
  by_cases h1 : (pyStrip p).isEmpty
  · rw [if_pos h1]
    have hdp : delws p = [] := by
      rw [← delws_pyStrip, List.isEmpty_iff.mp h1]
      rfl
    simp [hdp]
  · rw [if_neg h1]
    by_cases h2 : (pyStrip p).length ≤ limite
    · rw [if_pos h2]
      simp [delws_pyStrip]
    · rw [if_neg h2, chunkLoop_delws limite hl _ []]
      have hc : ((sentSplit (pyStrip p)).map (fun pr => pr.1 ++ pr.2)).flatten = pyStrip p :=
        sentSplit_content _
      rw [hc, delws_pyStrip]
      rfl

/-- C2: concatenating, in order, all chunks returned by
`dividir_texto_para_tts` reproduces exactly the non-whitespace content of
the input: both sides agree after deleting every whitespace character. -/
theorem claim_C2 (texto : List Char) (limite : Nat) (hl : 0 < limite) :
    delws (dividir_texto_para_tts texto limite).flatten = delws texto := by
  unfold dividir_texto_para_tts
  rw [delws_filter_flatten]
  have hstep : ∀ partes : List (List Char),
      delws ((partes.map (fun p =>
        let ps := pyStrip p
        if ps.isEmpty then []
        else if ps.length ≤ limite then [ps]
        else chunkLoop limite (sentSplit ps) [])).flatten.flatten)
      = (partes.map delws).flatten := by
    intro partes
    induction partes with
    | nil => rfl
    | cons p t ih =>
      simp only [List.map_cons, List.flatten_cons, List.flatten_append, delws_append, ih]
      rw [delws_paragraph_pieces limite hl p]
  rw [hstep, map_delws_splitDoubleNL]

/-- Witness for C2 at a concrete input. -/
theorem claim_C2_witness :
    delws (dividir_texto_para_tts (pstr "um dois. tres\n\nquatro") 7).flatten
      = delws (pstr "um dois. tres\n\nquatro") :=
  claim_C2 (pstr "um dois. tres\n\nquatro") 7 (by decide)

theorem foldl_update_not_mem (cs : List (Nat × Bool)) :
    ∀ (g : Nat → Bool) (i : Nat), i ∉ cs.map Prod.fst →
      cs.foldl (fun acc pr => fun j => if j = pr.1 then pr.2 else acc j) g i = g i := by
  induction cs with
  | nil => intro g i _; rfl
  | cons p rest ih =>
    intro g i hi
    simp only [List.map_cons, List.mem_cons] at hi
    push_neg at hi
    rw [List.foldl_cons, ih _ i hi.2]
    simp [hi.1]

theorem foldl_update_mem (cs : List (Nat × Bool)) :
    ∀ (g : Nat → Bool) (i : Nat) (b : Bool), (cs.map Prod.fst).Nodup → (i, b) ∈ cs →
      cs.foldl (fun acc pr => fun j => if j = pr.1 then pr.2 else acc j) g i = b := by
  induction cs with
  | nil => intro g i b _ h; simp at h
  | cons p rest ih =>
    intro g i b hnd hm
    simp only [List.map_cons] at hnd
    rw [List.foldl_cons]
    rcases List.mem_cons.mp hm with heq | hrest
    · have hp : p = (i, b) := heq.symm
      subst hp
      have hni : i ∉ rest.map Prod.fst := (List.nodup_cons.mp hnd).1
      rw [foldl_update_not_mem rest _ i hni]
      simp
    · exact ih _ i b (List.nodup_cons.mp hnd).2 hrest

theorem foldResults_eq (total : Nat) (res : Nat → Bool) (cs : List (Nat × Bool))
    (hperm : cs.Perm ((List.range total).map (fun i => (i, res i)))) :
    ∀ i ∈ List.range total, foldResults cs i = res i := by
  intro i hi
  have hkeys : (cs.map Prod.fst).Perm (List.range total) := by
    have h := hperm.map Prod.fst
    rw [List.map_map] at h
    have h3 : (List.range total).map (Prod.fst ∘ fun i => (i, res i)) = List.range total := by
      have hid : (Prod.fst ∘ fun i : Nat => (i, res i)) = id := rfl
      rw [hid, List.map_id]
    rw [h3] at h
    exact h
  have hnd : (cs.map Prod.fst).Nodup := hkeys.nodup_iff.mpr (List.nodup_range total)
  have hm : (i, res i) ∈ cs := hperm.mem_iff.mpr (List.mem_map.mpr ⟨i, hi, rfl⟩)
  exact foldl_update_mem cs _ i (res i) hnd hm

theorem buildSuccess_spec (results fsOk : Nat → Bool) (fname : Nat → List Char) :
    ∀ (l : List Nat) (acc : List (List Char)),
      (l.map fname).Nodup → (∀ i ∈ l, fname i ∉ acc) →
        l.foldl (fun acc i =>
          if results i && fsOk i then
            (if acc.contains (fname i) then acc else acc ++ [fname i])
          else acc) acc
        = acc ++ (l.filter (fun i => results i && fsOk i)).map fname := by
  intro l
  induction l with
  | nil => intro acc _ _; simp
  | cons j rest ih =>
    intro acc hnd hdisj
    have hndtail : (rest.map fname).Nodup := (List.nodup_cons.mp (by simpa using hnd)).2
    rw [List.foldl_cons]
    by_cases hq : (results j && fsOk j) = true
    · rw [if_pos hq]
      have hni : fname j ∉ acc := hdisj j (List.mem_cons_self j rest)
      rw [if_neg (by simpa using hni)]
      have hdisj2 : ∀ i ∈ rest, fname i ∉ acc ++ [fname j] := by
        intro i hi
        rw [List.mem_append]
        push_neg
        constructor
        · exact hdisj i (List.mem_cons_of_mem _ hi)
        · have hjn : fname j ∉ rest.map fname :=
            (List.nodup_cons.mp (by simpa using hnd)).1
          simp only [List.mem_singleton]
          intro hcon
          exact hjn (hcon ▸ List.mem_map.mpr ⟨i, hi, rfl⟩)
      rw [ih (acc ++ [fname j]) hndtail hdisj2]
      simp [List.filter_cons, hq, List.append_assoc]
    · rw [if_neg hq, ih acc hndtail (fun i hi => hdisj i (List.mem_cons_of_mem _ hi))]
      simp [List.filter_cons, hq]

/-- C3: for every completion order of the per-chunk tasks (any permutation
of the index-keyed results), the file list handed to audio unification is
the ascending-index filtered list, hence ordered by the chunks' original
zero-based indices, and the ffmpeg concat list-file references those files
in exactly that order. -/
theorem claim_C3 (total : Nat) (res fsOk : Nat → Bool) (fname : Nat → List Char)
    (hinj : ((List.range total).map fname).Nodup)
    (cs : List (Nat × Bool))
    (hperm : cs.Perm ((List.range total).map (fun i => (i, res i)))) :
    buildSuccessList total (foldResults cs) fsOk fname
      = ((List.range total).filter (fun i => res i && fsOk i)).map fname
    ∧ List.Pairwise (fun i j => i < j)
        ((List.range total).filter (fun i => res i && fsOk i))
    ∧ concatListFile (buildSuccessList total (foldResults cs) fsOk fname)
      = (((List.range total).filter (fun i => res i && fsOk i)).map
          (fun i => concatLine (fname i))).flatten := by
  have hres := foldResults_eq total res cs hperm
  have h1 : buildSuccessList total (foldResults cs) fsOk fname
      = ((List.range total).filter (fun i => res i && fsOk i)).map fname := by
    unfold buildSuccessList
    rw [buildSuccess_spec (foldResults cs) fsOk fname (List.range total) [] hinj
      (by simp), List.nil_append]
    congr 1
    apply List.filter_congr
    intro i hi
    rw [hres i hi]
  refine ⟨h1, ?_, ?_⟩
  · exact (List.pairwise_lt_range total).sublist (List.filter_sublist _)
  · rw [h1]
    unfold concatListFile
    rw [List.map_map]
    rfl

/-- Witness for C3: two tasks completing in reverse order still yield the
index-ordered file list. -/
theorem claim_C3_witness :
    buildSuccessList 2 (foldResults [(1, true), (0, true)]) (fun _ => true)
        (fun i => [Char.ofNat (65 + i)])
      = ((List.range 2).filter (fun i =>
          (fun _ : Nat => true) i && (fun _ : Nat => true) i)).map
          (fun i => [Char.ofNat (65 + i)])
    ∧ List.Pairwise (fun i j => i < j)
        ((List.range 2).filter (fun i =>
          (fun _ : Nat => true) i && (fun _ : Nat => true) i))
    ∧ concatListFile (buildSuccessList 2 (foldResults [(1, true), (0, true)])
        (fun _ => true) (fun i => [Char.ofNat (65 + i)]))
      = (((List.range 2).filter (fun i =>
          (fun _ : Nat => true) i && (fun _ : Nat => true) i)).map
          (fun i => concatLine ([Char.ofNat (65 + i)]))).flatten :=
  claim_C3 2 (fun _ => true) (fun _ => true) (fun i => [Char.ofNat (65 + i)])
    (by decide) [(1, true), (0, true)] (by decide)

/-- C4: on a non-cancelled attempt whose response is fatal (HTTP 400 or an
expired key) the Gemini loop fails immediately, with that single request
and no further retry; on any finite run of retryable attempts neither
adapter loop terminates (retry is unbounded), so an adapter run can only
end in success, a fatal failure, or cancellation. -/
theorem claim_C4 (t : Nat) (file : Option Nat) (e : GemEnv) (rest : List GemEnv)
    (envs : List GemEnv) (eenvs : List EdgeEnv)
    (hc : e.cancel = false) (hf : gemFatalNet e.net = true)
    (hr : ∀ x ∈ envs, gemRetryable x = true)
    (he : ∀ x ∈ eenvs, edgeRetryable x = true) :
    gemLoop false t file (e :: rest) = ⟨some .fatal, 1, [], none, [none]⟩
    ∧ (gemLoop false t file envs).result = none
    ∧ (edgeLoop false t file eenvs).result = none := by
  refine ⟨?_, ?_, ?_⟩
  · obtain ⟨ecan, enet, eenc, efile, ejit⟩ := e
    simp only at hc
    subst hc
    cases enet with
    | ok a => simp [gemFatalNet] at hf
    | rate d => simp [gemFatalNet] at hf
    | exc => simp [gemFatalNet] at hf
    | err s ke =>
      simp only [gemFatalNet] at hf
      simp [gemLoop, hf]
  · clear hc hf he e rest
    induction envs generalizing t file with
    | nil => rfl
    | cons x xs ih =>
      obtain ⟨xcan, xnet, xenc, xfile, xjit⟩ := x
      have hx := hr _ (List.mem_cons_self _ xs)
      have hxs : ∀ y ∈ xs, gemRetryable y = true :=
        fun y hy => hr y (List.mem_cons_of_mem _ hy)
      simp only [gemRetryable, Bool.and_eq_true] at hx
      obtain ⟨hxc, hxm⟩ := hx
      have hxc2 : xcan = false := by simpa using hxc
      subst hxc2
      cases xnet with
      | ok a =>
        cases a with
        | true =>
          simp only [Bool.not_eq_true'] at hxm
          simp [gemLoop, hxm]
          exact ih (t + 1) xfile hxs
        | false =>
          simp [gemLoop]
          exact ih (t + 1) none hxs
      | rate d =>
        simp [gemLoop]
        exact ih t none hxs
      | err s ke =>
        simp only [Bool.not_eq_true'] at hxm
        simp [gemLoop, hxm]
        exact ih (t + 1) none hxs
      | exc =>
        simp [gemLoop]
        exact ih (t + 1) none hxs
  · clear hc hf hr e rest envs
    induction eenvs generalizing t file with
    | nil => rfl
    | cons x xs ih =>
      obtain ⟨xcan, xexc, xfile⟩ := x
      have hx := he _ (List.mem_cons_self _ xs)
      have hxs : ∀ y ∈ xs, edgeRetryable y = true :=
        fun y hy => he y (List.mem_cons_of_mem _ hy)
      simp only [edgeRetryable, Bool.and_eq_true] at hx
      obtain ⟨hxc, hxm⟩ := hx
      have hxc2 : xcan = false := by simpa using hxc
      subst hxc2
      have hxm2 : (!xexc && bigFile xfile) = false := by
        cases hxe : xexc <;> simp_all
      simp [edgeLoop, hxm2]
      exact ih (t + 1) xfile hxs

/-- Witness for C4: a 400 response is fatal at once; a run of timeouts and
an invalid-save attempt keep both loops retrying. -/
theorem claim_C4_witness :
    gemLoop false 0 none
        (⟨false, .err 400 false, false, none, 0⟩ :: ([] : List GemEnv))
      = ⟨some .fatal, 1, [], none, [none]⟩
    ∧ (gemLoop false 0 none [⟨false, .exc, false, none, 0⟩]).result = none
    ∧ (edgeLoop false 0 none [⟨false, true, none⟩]).result = none :=
  claim_C4 0 none ⟨false, .err 400 false, false, none, 0⟩ []
    [⟨false, .exc, false, none, 0⟩] [⟨false, true, none⟩]
    rfl rfl (by decide) (by decide)

/-- C5 fails on the code: the Edge backoff `min(2 * tentativas, 20)` is
linear and deterministic; at attempt 3 it waits 6 seconds, which no
jittered exponential `min(2^3 + jitter, 20)` with jitter in [0, 1) can
produce. -/
theorem claim_C5_counterexample :
    edgeWait 3 = 6
    ∧ ¬ ∃ j : ℚ, 0 ≤ j ∧ j < 1 ∧ edgeWait 3 = min ((2 : ℚ) ^ 3 + j) 20 := by
  have h6 : edgeWait 3 = 6 := by
    unfold edgeWait
    norm_num
  refine ⟨h6, ?_⟩
  rintro ⟨j, hj0, _, heq⟩
  rw [h6] at heq
  have h8 : (8 : ℚ) ≤ min ((2 : ℚ) ^ 3 + j) 20 := le_min (by linarith [hj0]) (by norm_num)
  rw [← heq] at h8
  linarith

/-- C5 amended: only the Gemini variant backs off exponentially with jitter
and ceiling 20 (equal to `2^t + j` up to attempt 4, capped at 20 from
attempt 5 on); the Edge variant waits the linear, jitter-free
`min(2 * t, 20)` (equal to `2 t` up to attempt 10, capped at 20 after);
and on a retryable, non-rate-limited attempt each loop sleeps exactly its
formula at the incremented attempt counter. -/
theorem claim_C5_amended (t : Nat) (j : ℚ) (file : Option Nat)
    (e : GemEnv) (ee : EdgeEnv) (grest : List GemEnv) (erest : List EdgeEnv)
    (h0 : 0 ≤ j) (h1 : j < 1)
    (hge : gemRetryable e = true) (hgr : isRateNet e.net = false)
    (hee : edgeRetryable ee = true) :
    gemWait t j ≤ 20 ∧ (t ≤ 4 → gemWait t j = 2 ^ t + j) ∧ (5 ≤ t → gemWait t j = 20)
    ∧ edgeWait t ≤ 20 ∧ (t ≤ 10 → edgeWait t = 2 * t) ∧ (10 ≤ t → edgeWait t = 20)
    ∧ (gemLoop false t file (e :: grest)).waits.head? = some (gemWait (t + 1) e.jitter)
    ∧ (edgeLoop false t file (ee :: erest)).waits.head? = some (edgeWait (t + 1)) := by
  refine ⟨min_le_right _ _, ?_, ?_, min_le_right _ _, ?_, ?_, ?_, ?_⟩
  · intro ht
    apply min_eq_left
    have hp : (2 : ℚ) ^ t ≤ 2 ^ 4 := by
      apply pow_le_pow_right₀ (by norm_num) ht
    norm_num at hp
    linarith
  · intro ht
    apply min_eq_right
    have hp : (2 : ℚ) ^ 5 ≤ 2 ^ t := by
      apply pow_le_pow_right₀ (by norm_num) ht
    norm_num at hp
    linarith
  · intro ht
    apply min_eq_left
    have hc : (t : ℚ) ≤ 10 := by exact_mod_cast ht
    linarith
  · intro ht
    apply min_eq_right
    have hc : (10 : ℚ) ≤ t := by exact_mod_cast ht
    linarith
  · obtain ⟨ecan, enet, eenc, efile, ejit⟩ := e
    simp only [gemRetryable, Bool.and_eq_true] at hge
    obtain ⟨hec, hem⟩ := hge
    have hec2 : ecan = false := by simpa using hec
    subst hec2
    cases enet with
    | ok a =>
      cases a with
      | true =>
        simp only [Bool.not_eq_true'] at hem
        simp [gemLoop, hem]
      | false => simp [gemLoop]
    | rate d => simp [isRateNet] at hgr
    | err s ke =>
      simp only [Bool.not_eq_true'] at hem
      simp [gemLoop, hem]
    | exc => simp [gemLoop]
  · obtain ⟨ecan, eexc, efile⟩ := ee
    simp only [edgeRetryable, Bool.and_eq_true] at hee
    obtain ⟨hec, hem⟩ := hee
    have hec2 : ecan = false := by simpa using hec
    subst hec2
    have hem2 : (!eexc && bigFile efile) = false := by
      cases hxe : eexc <;> simp_all
    simp [edgeLoop, hem2]

/-- Witness for the amended C5 at attempt 3 with jitter 1/2, a timed-out
Gemini attempt and a failed Edge save. -/
theorem claim_C5_amended_witness :
    gemWait 3 (1/2) ≤ 20
    ∧ (3 ≤ 4 → gemWait 3 (1/2) = 2 ^ 3 + 1/2) ∧ (5 ≤ 3 → gemWait 3 (1/2) = 20)
    ∧ edgeWait 3 ≤ 20 ∧ (3 ≤ 10 → edgeWait 3 = 2 * 3) ∧ (10 ≤ 3 → edgeWait 3 = 20)
    ∧ (gemLoop false 3 none [⟨false, .exc, false, none, (1/2 : ℚ)⟩]).waits.head?
        = some (gemWait (3 + 1) (⟨false, .exc, false, none, (1/2 : ℚ)⟩ : GemEnv).jitter)
    ∧ (edgeLoop false 3 none [⟨false, true, none⟩]).waits.head? = some (edgeWait (3 + 1)) :=
  claim_C5_amended 3 (1/2) none ⟨false, .exc, false, none, (1/2 : ℚ)⟩ ⟨false, true, none⟩
    [] [] (by norm_num) (by norm_num) (by decide) (by decide) (by decide)

/-- C6 fails on the code at one point: a 429 response that does carry a
server-specified delay of 0 seconds is not honoured exactly — the code
treats the parsed 0 like an absent delay and waits the fallback
`1^tentativas + jitter` instead. -/
theorem claim_C6_counterexample :
    gem429Wait (some 0) 5 (1/2) = 3/2 ∧ (3 : ℚ)/2 ≠ 0 := by
  constructor
  · unfold gem429Wait
    norm_num
  · norm_num

/-- C6 amended: a parsed nonzero 429 delay is awaited exactly; an absent or
zero delay falls back to `1^attempts + jitter`, a constant in [1, 2)
independent of the attempt count; and the 429 branch retries at the same
`tentativas` value (the counter that drives exponential backoff is not
incremented), sleeping exactly the mandated wait. -/
theorem claim_C6_amended (d : ℚ) (t tOther : Nat) (j : ℚ) (file : Option Nat)
    (e : GemEnv) (rest : List GemEnv) (dd : Option ℚ)
    (h0 : 0 ≤ j) (h1 : j < 1) (hd : d ≠ 0)
    (hc : e.cancel = false) (hn : e.net = .rate dd) :
    gem429Wait (some d) t j = d
    ∧ gem429Wait none t j = 1 + j
    ∧ gem429Wait (some 0) t j = 1 + j
    ∧ 1 ≤ 1 + j ∧ 1 + j < 2
    ∧ gem429Wait none t j = gem429Wait none tOther j
    ∧ (gemLoop false t file (e :: rest)).waits
        = gem429Wait dd t e.jitter :: (gemLoop false t none rest).waits
    ∧ (gemLoop false t file (e :: rest)).result = (gemLoop false t none rest).result := by
  have hloop : gemLoop false t file (e :: rest)
      = ⟨(gemLoop false t none rest).result, (gemLoop false t none rest).calls + 1,
          gem429Wait dd t e.jitter :: (gemLoop false t none rest).waits,
          (gemLoop false t none rest).file,
          none :: (gemLoop false t none rest).atCall⟩ := by
    rw [gemLoop, if_neg (by simp [hc]), if_neg (by simp), hn]
  refine ⟨?_, ?_, ?_, by linarith, by linarith, ?_, ?_, ?_⟩
  · unfold gem429Wait
    simp [hd]
  · unfold gem429Wait
    simp
  · unfold gem429Wait
    simp
  · unfold gem429Wait
    simp
  · rw [hloop]
  · rw [hloop]

/-- Witness for the amended C6: delay 5 honoured exactly; fallback 1 + 1/2. -/
theorem claim_C6_amended_witness :
    gem429Wait (some 5) 2 (1/2) = 5
    ∧ gem429Wait none 2 (1/2) = 1 + 1/2
    ∧ gem429Wait (some 0) 2 (1/2) = 1 + 1/2
    ∧ 1 ≤ 1 + (1 : ℚ)/2 ∧ 1 + (1 : ℚ)/2 < 2
    ∧ gem429Wait none 2 (1/2) = gem429Wait none 7 (1/2)
    ∧ (gemLoop false 2 (some 10)
        (⟨false, .rate (some 5), false, none, (1/2 : ℚ)⟩ :: ([] : List GemEnv))).waits
        = gem429Wait (some 5) 2 (1/2 : ℚ) :: (gemLoop false 2 none ([] : List GemEnv)).waits
    ∧ (gemLoop false 2 (some 10)
        (⟨false, .rate (some 5), false, none, (1/2 : ℚ)⟩ :: ([] : List GemEnv))).result
        = (gemLoop false 2 none ([] : List GemEnv)).result :=
  claim_C6_amended 5 2 7 (1/2) (some 10)
    ⟨false, .rate (some 5), false, none, (1/2 : ℚ)⟩ [] (some 5)
    (by norm_num) (by norm_num) (by norm_num) rfl rfl

/-- C7: a chunk whose output file already exists with more than 200 bytes
makes both adapters return success immediately, issuing no network request
(the resume mechanism). -/
theorem claim_C7 (emptyText : Bool) (file0 : Option Nat)
    (genvs : List GemEnv) (eenvs : List EdgeEnv) (hbig : bigFile file0 = true) :
    gemConvert emptyText file0 genvs = ⟨some .success, 0, [], file0, []⟩
    ∧ edgeConvert emptyText file0 eenvs = ⟨some .success, 0, [], file0, []⟩ := by
  constructor
  · rw [gemConvert, if_pos hbig]
  · rw [edgeConvert, if_pos hbig]

/-- Witness for C7: a 300-byte file short-circuits both adapters. -/
theorem claim_C7_witness :
    gemConvert false (some 300) [⟨false, .exc, false, none, 0⟩]
      = ⟨some .success, 0, [], some 300, []⟩
    ∧ edgeConvert false (some 300) [⟨false, true, none⟩]
      = ⟨some .success, 0, [], some 300, []⟩ :=
  claim_C7 false (some 300) [⟨false, .exc, false, none, 0⟩] [⟨false, true, none⟩] (by decide)

/-- C8 fails on the code for empty chunks: an empty or whitespace-only
chunk text makes the adapter return success right after unlinking the
output file, so success is reported with no output file at all. -/
theorem claim_C8_counterexample :
    (edgeConvert true none [⟨false, false, none⟩]).result = some .emptyOk
    ∧ ExitKind.toBool .emptyOk = true
    ∧ (edgeConvert true none [⟨false, false, none⟩]).file = none
    ∧ bigFile none = false := by
  refine ⟨?_, rfl, ?_, rfl⟩
  · rfl
  · rfl

/-- C8 amended: every network request of either retry loop happens with the
output file already deleted (the `unlink` at the top of each iteration),
and for a non-empty chunk a success exit of the loop leaves an output file
larger than the 200-byte threshold; empty chunks are the exception,
reporting success with no file. -/
theorem claim_C8_amended (t : Nat) (file : Option Nat)
    (genvs : List GemEnv) (eenvs : List EdgeEnv)
    (s1 s2 : Option Nat)
    (h1 : s1 ∈ (gemLoop false t file genvs).atCall)
    (h2 : s2 ∈ (edgeLoop false t file eenvs).atCall) :
    s1 = none ∧ s2 = none
    ∧ ((gemLoop false t file genvs).result = some .success →
        bigFile (gemLoop false t file genvs).file = true)
    ∧ ((edgeLoop false t file eenvs).result = some .success →
        bigFile (edgeLoop false t file eenvs).file = true) := by
  refine ⟨?_, ?_, ?_, ?_⟩
  · clear h2
    induction genvs generalizing t file with
    | nil => simp [gemLoop] at h1
    | cons e rest ih =>
      obtain ⟨ecan, enet, eenc, efile, ejit⟩ := e
      cases ecan with
      | true => simp [gemLoop] at h1
      | false =>
        cases enet with
        | ok a =>
          cases a with
          | true =>
            by_cases hok : (eenc && bigFile efile) = true
            · simp [gemLoop, hok] at h1
              exact h1
            · simp [gemLoop, hok] at h1
              rcases h1 with h1 | h1
              · exact h1
              · exact ih (t + 1) efile h1
          | false =>
            simp [gemLoop] at h1
            rcases h1 with h1 | h1
            · exact h1
            · exact ih (t + 1) none h1
        | rate d =>
          simp [gemLoop] at h1
          rcases h1 with h1 | h1
          · exact h1
          · exact ih t none h1
        | err s ke =>
          by_cases hfk : (s == 400 || ke) = true
          · simp [gemLoop, hfk] at h1
            exact h1
          · simp [gemLoop, hfk] at h1
            rcases h1 with h1 | h1
            · exact h1
            · exact ih (t + 1) none h1
        | exc =>
          simp [gemLoop] at h1
          rcases h1 with h1 | h1
          · exact h1
          · exact ih (t + 1) none h1
  · clear h1
    induction eenvs generalizing t file with
    | nil => simp [edgeLoop] at h2
    | cons e rest ih =>
      obtain ⟨ecan, eexc, efile⟩ := e
      cases ecan with
      | true => simp [edgeLoop] at h2
      | false =>
        by_cases hok : (!eexc && bigFile efile) = true
        · simp [edgeLoop, hok] at h2
          exact h2
        · simp [edgeLoop, hok] at h2
          rcases h2 with h2 | h2
          · exact h2
          · exact ih (t + 1) efile h2
  · clear h1 h2
    induction genvs generalizing t file with
    | nil => intro hres; exact absurd hres (by simp [gemLoop])
    | cons e rest ih =>
      intro hres
      obtain ⟨ecan, enet, eenc, efile, ejit⟩ := e
      cases ecan with
      | true => simp [gemLoop] at hres
      | false =>
        cases enet with
        | ok a =>
          cases a with
          | true =>
            by_cases hok : (eenc && bigFile efile) = true
            · simp [gemLoop, hok] at hres ⊢
              exact (Bool.and_eq_true _ _ |>.mp hok).2
            · simp [gemLoop, hok] at hres ⊢
              exact ih (t + 1) efile hres
          | false =>
            simp [gemLoop] at hres ⊢
            exact ih (t + 1) none hres
        | rate d =>
          simp [gemLoop] at hres ⊢
          exact ih t none hres
        | err s ke =>
          by_cases hfk : (s == 400 || ke) = true
          · simp [gemLoop, hfk] at hres
          · simp [gemLoop, hfk] at hres ⊢
            exact ih (t + 1) none hres
        | exc =>
          simp [gemLoop] at hres ⊢
          exact ih (t + 1) none hres
  · clear h1 h2
    induction eenvs generalizing t file with
    | nil => intro hres; exact absurd hres (by simp [edgeLoop])
    | cons e rest ih =>
      intro hres
      obtain ⟨ecan, eexc, efile⟩ := e
      cases ecan with
      | true => simp [edgeLoop] at hres
      | false =>
        by_cases hok : (!eexc && bigFile efile) = true
        · simp [edgeLoop, hok] at hres ⊢
          exact (Bool.and_eq_true _ _ |>.mp hok).2
        · simp [edgeLoop, hok] at hres ⊢
          exact ih (t + 1) efile hres

set_option maxRecDepth 100000

/-- C9 fails on the code: the normalizer maps "capitulo 4 A Fuga" to
"CAPITULO quatro.\n\nA Fuga.", not to "CAPÍTULO 4.\n\nA Fuga" — `.upper()`
does not add the accent the input lacks, the later digit-expansion pass
spells out the chapter number, and the final pass appends a period to the
title paragraph. -/
theorem claim_C9_counterexample :
    formatar_texto_para_tts (pstr "capitulo 4 A Fuga") ≠ pstr "CAPÍTULO 4.\n\nA Fuga" := by
  decide

/-- C9 amended: the normalizer maps "capitulo 4 A Fuga" to the canonical
two-paragraph block "CAPITULO quatro.\n\nA Fuga." (header upper-cased as
written, chapter number spelled out by the number-expansion pass, title
title-cased and period-terminated). -/
theorem claim_C9_amended :
    formatar_texto_para_tts (pstr "capitulo 4 A Fuga") = pstr "CAPITULO quatro.\n\nA Fuga." := by
  decide

/-- C10 fails on the code: the chapter-heading pass applied to an
already-canonical header block does not leave it unchanged — it rewrites
the block and prepends a fresh paragraph separator. -/
theorem claim_C10_counterexample :
    formatar_numeracao_capitulos (pstr "CAPÍTULO 4.\n\nA Fuga")
      ≠ pstr "CAPÍTULO 4.\n\nA Fuga" := by
  decide

/-- C10 amended: re-running the heading pass on an already-canonical
header block reproduces the same header and title but prepends one
paragraph separator ("\n\n"); the full normalizer, whose later passes
strip that separator, is idempotent on the chapter canonicalization
scenario input. -/
theorem claim_C10_amended :
    formatar_numeracao_capitulos (pstr "CAPÍTULO 4.\n\nA Fuga")
      = pstr "\n\nCAPÍTULO 4.\n\nA Fuga"
    ∧ formatar_texto_para_tts (formatar_texto_para_tts (pstr "capitulo 4 A Fuga"))
      = formatar_texto_para_tts (pstr "capitulo 4 A Fuga") := by
  constructor
  · decide
  · decide

/-- Witness for the amended C8: one-attempt successful runs of both loops,
whose single network call each happened with the file deleted. -/
theorem claim_C8_amended_witness :
    (none : Option Nat) = none ∧ (none : Option Nat) = none
    ∧ ((gemLoop false 0 none [⟨false, .ok true, true, some 300, 0⟩]).result = some .success →
        bigFile (gemLoop false 0 none [⟨false, .ok true, true, some 300, 0⟩]).file = true)
    ∧ ((edgeLoop false 0 none [⟨false, false, some 300⟩]).result = some .success →
        bigFile (edgeLoop false 0 none [⟨false, false, some 300⟩]).file = true) :=
  claim_C8_amended 0 none [⟨false, .ok true, true, some 300, 0⟩]
    [⟨false, false, some 300⟩] none none (by decide) (by decide)

end TTS
